import Mathlib

/-!
Verification development for the mailbox-sync / payment-analysis service.

This file contains a shallow embedding of the service's core functions
(Gmail incremental sync, MIME message parsing with forwarded-sender
rewriting, OAuth token refresh, evidence-file collection, the analysis
pipeline and the payment-report duplicate detector), translated from the
TypeScript sources, together with theorems about them.

Modelling conventions used throughout:
* JavaScript strings are modelled as `List Char` (`Str`); JS falsiness of
  a possibly-absent string (`undefined`, `null`, or the empty string) is
  `truthy : Option Str → Bool`.
* Timestamps (`Date` values, `Date.now()`) are epoch milliseconds as `Int`;
  the host timezone is taken to be UTC, so `setHours(0,0,0,0)` truncates
  to a multiple of 86,400,000 ms.
* JS `number` amounts are modelled as exact rationals (`Rat`).
* Network and database effects are explicit: repositories are lists of
  rows, `fetch`-style calls are function parameters, and fallible
  operations return `Except`/`Option`.
* The regular expressions appearing in the sources are embedded as data
  (`RItem` sequences, repetition only over single-character classes) and
  run by a backtracking matcher `runItems` that mirrors the JS engine's
  leftmost, greedy/lazy preference order.
-/

namespace Mycv

/-! ## Basic string helpers (JS semantics) -/

/-- JavaScript strings, modelled as lists of characters. -/
abbrev Str := List Char

/-- The character set matched by the JS regex class `\s` (also the set
trimmed by `String.prototype.trim`). -/
def isJsWs (c : Char) : Bool :=
  c = '\t' || c = '\n' || c.toNat = 0x0b || c.toNat = 0x0c || c = '\r' || c = ' ' ||
  c.toNat = 0xa0 || c.toNat = 0x1680 ||
  (0x2000 ≤ c.toNat && c.toNat ≤ 0x200a) ||
  c.toNat = 0x2028 || c.toNat = 0x2029 || c.toNat = 0x202f ||
  c.toNat = 0x205f || c.toNat = 0x3000 || c.toNat = 0xfeff

/-- JS `toLowerCase` (ASCII-accurate; the non-ASCII characters appearing in
the sources are Korean and are unaffected by case mapping). -/
def lowerStr (s : Str) : Str := s.map Char.toLower

/-- Does `s` start with `p`?  (JS `String.prototype.startsWith`.) -/
def strStarts : Str → Str → Bool
  | _, [] => true
  | [], _ :: _ => false
  | c :: s, p :: ps => c = p && strStarts s ps

/-- Substring containment (JS `String.prototype.includes`). -/
def strIncludes : Str → Str → Bool
  | s, n => if strStarts s n then true else
    match s with
    | [] => false
    | _ :: t => strIncludes t n

/-- Index of the first occurrence of `n` in `s` (JS `indexOf`), `none` for -1. -/
def indexOfSub (s n : Str) : Option Nat :=
  go s 0
where
  go : Str → Nat → Option Nat
    | t, i => if strStarts t n then some i else
      match t with
      | [] => none
      | _ :: r => go r (i + 1)

/-- JS `String.prototype.trim`. -/
def trimJs (s : Str) : Str :=
  ((s.dropWhile isJsWs).reverse.dropWhile isJsWs).reverse

/-- JS `split(/\s+/)`: splits on maximal whitespace runs; a leading
(resp. trailing) run contributes a leading (resp. trailing) empty token. -/
def splitWsJs (s : Str) : List Str :=
  go s []
where
  go : Str → Str → List Str
    | [], cur => [cur.reverse]
    | c :: rest, cur =>
      if isJsWs c then cur.reverse :: go (rest.dropWhile isJsWs) []
      else go rest (c :: cur)
  termination_by t _ => t.length
  decreasing_by
    · simp only [List.length_cons]
      exact Nat.lt_succ_of_le (List.dropWhile_sublist _).length_le
    · simp

/-- JS truthiness of a possibly-absent string: `undefined`/`null` and the
empty string are falsy. -/
def truthy : Option Str → Bool
  | some s => !s.isEmpty
  | none => false

/-- JS truthiness of a possibly-absent number: absent and `0` are falsy. -/
def truthyQ : Option Rat → Bool
  | some v => decide (v ≠ 0)
  | none => false

/-! ## A small backtracking matcher for the regexes in the sources

Every regex in the embedded sources uses repetition only over
single-character classes, so patterns are sequences of the items below
and matching is the JS engine's backtracking search with the usual
greedy/lazy preference order and leftmost-first overall match. -/

/-- Single-character classes appearing in the sources' regexes. -/
inductive CClass where
  /-- the dot `.` without the `s` flag: any character except a newline -/
  | anyNotNL : CClass
  /-- the class `\s` -/
  | ws : CClass
  /-- a positive class such as `["']` -/
  | oneOf (cs : Str) : CClass
  /-- a negated class such as `[^>]` -/
  | notOf (cs : Str) : CClass
  /-- a negated class containing `\s`, such as `[^\n\s>]` -/
  | notWsNotOf (cs : Str) : CClass
deriving Repr, DecidableEq

def CClass.test : CClass → Char → Bool
  | .anyNotNL, c => c ≠ '\n'
  | .ws, c => isJsWs c
  | .oneOf cs, c => cs.contains c
  | .notOf cs, c => !cs.contains c
  | .notWsNotOf cs, c => !isJsWs c && !cs.contains c

/-- One item of an embedded regex. -/
inductive RItem where
  /-- a literal, matched case-insensitively when `ci` is true (the `i` flag) -/
  | lit (s : Str) (ci : Bool) : RItem
  /-- a single character of a class -/
  | one (c : CClass) : RItem
  /-- `c?` (greedy) -/
  | optC (c : CClass) : RItem
  /-- `c*`, lazy when `lazy` is true -/
  | star (c : CClass) (lazy : Bool) : RItem
  /-- `c+`, lazy when `lazy` is true -/
  | plus (c : CClass) (lazy : Bool) : RItem
deriving Repr

/-- Case-insensitive character comparison, as used by the `i` flag. -/
def ciEqChar (a b : Char) : Bool := a.toLower = b.toLower

/-- Strip a literal from the front of the input. -/
def stripLit (ci : Bool) : Str → Str → Option Str
  | [], s => some s
  | _ :: _, [] => none
  | p :: ps, c :: s =>
    if (if ci then ciEqChar p c else p = c) then stripLit ci ps s else none

/-- Length of the maximal prefix run of characters in class `c`. -/
def runLen (c : CClass) (s : Str) : Nat := (s.takeWhile c.test).length

/-- Candidate consumption lengths for `c*`, in preference order. -/
def starCands (c : CClass) (lazy : Bool) (s : Str) : List Nat :=
  let n := runLen c s
  if lazy then List.range (n + 1) else (List.range (n + 1)).reverse

/-- Candidate consumption lengths for `c+`, in preference order. -/
def plusCands (c : CClass) (lazy : Bool) (s : Str) : List Nat :=
  let n := runLen c s
  if lazy then List.range' 1 n else (List.range' 1 n).reverse

/-- Backtracking matcher: try to match the item sequence at the start of
the input, invoking the continuation on the remaining input; alternatives
are tried in the JS engine's preference order and the first success wins. -/
def runItems : List RItem → Str → (Str → Option α) → Option α
  | [], s, k => k s
  | .lit p ci :: rest, s, k =>
    match stripLit ci p s with
    | some s2 => runItems rest s2 k
    | none => none
  | .one c :: rest, s, k =>
    match s with
    | x :: s2 => if c.test x then runItems rest s2 k else none
    | [] => none
  | .optC c :: rest, s, k =>
    match s with
    | x :: s2 =>
      if c.test x then
        match runItems rest s2 k with
        | some r => some r
        | none => runItems rest s k
      else runItems rest s k
    | [] => runItems rest s k
  | .star c lz :: rest, s, k =>
    (starCands c lz s).findSome? (fun i => runItems rest (s.drop i) k)
  | .plus c lz :: rest, s, k =>
    (plusCands c lz s).findSome? (fun i => runItems rest (s.drop i) k)

/-- Match `pre`, then a capturing group `cap`, then `post`, anchored at the
start of `s`; returns the text consumed by `cap` and the input remaining
after the whole match. -/
def matchTriple (pre cap post : List RItem) (s : Str) : Option (Str × Str) :=
  runItems pre s (fun s1 =>
    runItems cap s1 (fun s2 =>
      runItems post s2 (fun s3 =>
        some (s1.take (s1.length - s2.length), s3))))

/-- Leftmost match of `pre (cap) post` in `s` (JS `String.prototype.match`
without the `g` flag); returns the capture and the input remaining after
the match. -/
def findFirstCapture (pre cap post : List RItem) : Str → Option (Str × Str)
  | [] => matchTriple pre cap post []
  | c :: t =>
    match matchTriple pre cap post (c :: t) with
    | some r => some r
    | none => findFirstCapture pre cap post t

/-- All captures of a global regex (JS `exec` loop with the `g` flag):
repeatedly take the leftmost match and continue after it.  The fuel
argument only serves termination; every embedded pattern consumes at
least one character per match, so fuel `s.length + 1` is never exhausted. -/
def findAllCapturesCore : Nat → List RItem → List RItem → List RItem → Str → List Str
  | 0, _, _, _, _ => []
  | fuel + 1, pre, cap, post, s =>
    match findFirstCapture pre cap post s with
    | some (capt, rest) => capt :: findAllCapturesCore fuel pre cap post rest
    | none => []

def findAllCaptures (pre cap post : List RItem) (s : Str) : List Str :=
  findAllCapturesCore (s.length + 1) pre cap post s

/-- Leftmost match of a whole pattern: returns the text before the match
and the text after it. -/
def findFirstSpan (items : List RItem) (s : Str) : Option (Str × Str) :=
  go s []
where
  go : Str → Str → Option (Str × Str)
    | t, accRev =>
      match runItems items t some with
      | some rest => some (accRev.reverse, rest)
      | none =>
        match t with
        | [] => none
        | c :: r => go r (c :: accRev)

/-- JS `String.prototype.replace` with the `g` flag: replace every match
of the pattern with `rep`, scanning left to right (replacements are not
rescanned).  Fuel as in `findAllCapturesCore`. -/
def replaceAllCore : Nat → List RItem → Str → Str → Str
  | 0, _, _, s => s
  | fuel + 1, items, rep, s =>
    match findFirstSpan items s with
    | some (pre, rest) => pre ++ rep ++ replaceAllCore fuel items rep rest
    | none => s

def replaceAllStr (items : List RItem) (rep : Str) (s : Str) : Str :=
  replaceAllCore (s.length + 1) items rep s

/-- JS `replace` of a fixed literal with the `g` flag (used for the HTML
entity decoder, whose patterns are all literals). -/
def replaceLitCore : Nat → Str → Bool → Str → Str → Str
  | 0, _, _, _, s => s
  | fuel + 1, nd, ci, rep, s =>
    match stripLit ci nd s with
    | some rest => rep ++ replaceLitCore fuel nd ci rep rest
    | none =>
      match s with
      | [] => []
      | c :: t => c :: replaceLitCore fuel nd ci rep t

def replaceLit (nd : String) (ci : Bool) (rep : String) (s : Str) : Str :=
  replaceLitCore (s.length + 1) nd.toList ci rep.toList s

/-! ## Base64url and UTF-8 decoding (`GoogleService.decodeBase64Url`) -/

/-- Value of a standard base64 alphabet character. -/
def b64Val (c : Char) : Option Nat :=
  if 65 ≤ c.toNat ∧ c.toNat ≤ 90 then some (c.toNat - 65)
  else if 97 ≤ c.toNat ∧ c.toNat ≤ 122 then some (c.toNat - 97 + 26)
  else if 48 ≤ c.toNat ∧ c.toNat ≤ 57 then some (c.toNat - 48 + 52)
  else if c = '+' then some 62
  else if c = '/' then some 63
  else none

/-- Sextet stream of a base64 string: decoding stops at the first `=` and
characters outside the alphabet are skipped (Node `Buffer.from(·, 'base64')`). -/
def b64Sextets : Str → List Nat
  | [] => []
  | c :: t =>
    if c = '=' then []
    else
      match b64Val c with
      | some v => v :: b64Sextets t
      | none => b64Sextets t

/-- Bytes of a sextet stream; a trailing group of 2 (resp. 3) sextets
yields 1 (resp. 2) bytes, a single leftover sextet yields none. -/
def sexToBytes : List Nat → List Nat
  | a :: b :: c :: d :: rest =>
    (a * 4 + b / 16) :: ((b % 16) * 16 + c / 4) :: ((c % 4) * 64 + d) :: sexToBytes rest
  | [a, b] => [a * 4 + b / 16]
  | [a, b, c] => [a * 4 + b / 16, (b % 16) * 16 + c / 4]
  | _ => []

def decodeBase64 (s : Str) : List Nat := sexToBytes (b64Sextets s)

/-- A Unicode scalar value from a code point, or U+FFFD if invalid. -/
def mkScalar (n : Nat) : Char :=
  if n.isValidChar then Char.ofNat n else Char.ofNat 0xfffd

/-- Is `b` a UTF-8 continuation byte? -/
def isCont (b : Nat) : Bool := 0x80 ≤ b && b ≤ 0xbf

/-- Lossy UTF-8 decoding (Node `buffer.toString('utf-8')`): malformed
sequences become U+FFFD. -/
def utf8Lossy : List Nat → Str
  | [] => []
  | b :: rest =>
    if b < 0x80 then mkScalar b :: utf8Lossy rest
    else if 0xc2 ≤ b ∧ b ≤ 0xdf then
      match rest with
      | b2 :: rest2 =>
        if isCont b2 then mkScalar ((b - 0xc0) * 64 + (b2 - 0x80)) :: utf8Lossy rest2
        else mkScalar 0xfffd :: utf8Lossy (b2 :: rest2)
      | [] => [mkScalar 0xfffd]
    else if 0xe0 ≤ b ∧ b ≤ 0xef then
      match rest with
      | b2 :: b3 :: rest3 =>
        if isCont b2 && isCont b3 then
          mkScalar ((b - 0xe0) * 4096 + (b2 - 0x80) * 64 + (b3 - 0x80)) :: utf8Lossy rest3
        else mkScalar 0xfffd :: utf8Lossy (b2 :: b3 :: rest3)
      | [b2] => mkScalar 0xfffd :: utf8Lossy [b2]
      | [] => [mkScalar 0xfffd]
    else if 0xf0 ≤ b ∧ b ≤ 0xf4 then
      match rest with
      | b2 :: b3 :: b4 :: rest4 =>
        if isCont b2 && isCont b3 && isCont b4 then
          mkScalar ((b - 0xf0) * 262144 + (b2 - 0x80) * 4096 + (b3 - 0x80) * 64 + (b4 - 0x80)) ::
            utf8Lossy rest4
        else mkScalar 0xfffd :: utf8Lossy (b2 :: b3 :: b4 :: rest4)
      | [b2, b3] => mkScalar 0xfffd :: utf8Lossy [b2, b3]
      | [b2] => mkScalar 0xfffd :: utf8Lossy [b2]
      | [] => [mkScalar 0xfffd]
    else mkScalar 0xfffd :: utf8Lossy rest

/-- Gmail URL-safe base64 decoding followed by UTF-8 text decoding
(`GoogleService.decodeBase64Url`): `-` becomes `+`, `_` becomes `/`. -/
def decodeBase64Url (data : Str) : Str :=
  utf8Lossy (decodeBase64
    (data.map (fun c => if c = '-' then '+' else if c = '_' then '/' else c)))

/-! ## Gmail message structure and `GoogleService.parseGmailMessage` -/

/-- One entry of a part's `headers` array. -/
structure GHeader where
  name : Str
  value : Str
deriving Repr, DecidableEq

/-- A part's `body` object. -/
structure GBody where
  attachmentId : Option Str
  size : Option Nat
  data : Option Str
deriving Repr, DecidableEq

/-- A node of the MIME part tree (`message.payload` and its `parts`).
Absent JSON fields are `none`; an absent `parts` array is the empty list
(recursing into an empty list is a no-op, matching the source's
`if (part.parts)` guard). -/
inductive GmailPart where
  | mk (mimeType : Option Str) (filename : Option Str) (headers : List GHeader)
      (body : Option GBody) (parts : List GmailPart) : GmailPart
deriving Repr

def GmailPart.mimeType : GmailPart → Option Str
  | .mk m _ _ _ _ => m

def GmailPart.filename : GmailPart → Option Str
  | .mk _ f _ _ _ => f

def GmailPart.headers : GmailPart → List GHeader
  | .mk _ _ h _ _ => h

def GmailPart.body : GmailPart → Option GBody
  | .mk _ _ _ b _ => b

def GmailPart.parts : GmailPart → List GmailPart
  | .mk _ _ _ _ ps => ps

/-- `part.body?.attachmentId`. -/
def bodyAttId (p : GmailPart) : Option Str :=
  match p.body with
  | some b => b.attachmentId
  | none => none

/-- `part.body?.size`. -/
def bodySize (p : GmailPart) : Option Nat :=
  match p.body with
  | some b => b.size
  | none => none

/-- `part.body?.data`. -/
def bodyData (p : GmailPart) : Option Str :=
  match p.body with
  | some b => b.data
  | none => none

/-- Header lookup with case-insensitive name comparison (the source's
`getHeader` and the per-part header lookups). -/
def getHeaderVal (headers : List GHeader) (name : Str) : Option Str :=
  (headers.find? (fun h => lowerStr h.name = lowerStr name)).map (·.value)

/-- `replace(/[<>]/g, '')` applied to a Content-ID header value. -/
def stripAngles (s : Str) : Str := s.filter (fun c => c ≠ '<' && c ≠ '>')

/-- Attachment / inline-image descriptor assembled during part extraction. -/
structure AttachInfo where
  id : Str
  filename : Str
  mimeType : Option Str
  size : Option Nat
  contentId : Option Str
  isInline : Bool
deriving Repr, DecidableEq

/-- Mutable state of the `extractParts` closure. -/
structure ExtractAcc where
  textBody : Str
  htmlBody : Str
  attachments : List AttachInfo
  inlineImages : List AttachInfo
deriving Repr, DecidableEq

/-- `part.mimeType?.startsWith('image/')`. -/
def isImageMime (p : GmailPart) : Bool :=
  match p.mimeType with
  | some m => strStarts m "image/".toList
  | none => false

/-- Body of the `extractParts` loop for a single part excluding the final
recursion into nested parts, in source order: attachment/inline-image
classification, then text body (first non-empty plain text wins), then
HTML body (last wins). -/
def extractPartCore (acc : ExtractAcc) (p : GmailPart) : ExtractAcc :=
  let cid := (getHeaderVal p.headers "content-id".toList).map stripAngles
  let cdis := (getHeaderVal p.headers "content-disposition".toList).getD []
  let acc1 :=
    if isImageMime p && truthy (bodyAttId p) then
      let info : AttachInfo :=
        { id := (bodyAttId p).getD []
          filename := if truthy p.filename then p.filename.getD [] else "image".toList
          mimeType := p.mimeType
          size := bodySize p
          contentId := cid
          isInline := strIncludes cdis "inline".toList || truthy cid }
      if info.isInline then { acc with inlineImages := acc.inlineImages ++ [info] }
      else { acc with attachments := acc.attachments ++ [info] }
    else if truthy p.filename && truthy (bodyAttId p) then
      { acc with attachments := acc.attachments ++
          [{ id := (bodyAttId p).getD []
             filename := p.filename.getD []
             mimeType := p.mimeType
             size := bodySize p
             contentId := none
             isInline := false }] }
    else acc
  let acc2 :=
    if p.mimeType = some "text/plain".toList ∧ truthy (bodyData p) = true ∧
        acc1.textBody = [] then
      { acc1 with textBody := decodeBase64Url ((bodyData p).getD []) }
    else acc1
  let acc3 :=
    if p.mimeType = some "text/html".toList ∧ truthy (bodyData p) = true then
      { acc2 with htmlBody := decodeBase64Url ((bodyData p).getD []) }
    else acc2
  acc3

mutual

/-- Processing of one part: the per-part body followed by the recursion
into its nested parts. -/
def extractPart (acc : ExtractAcc) : GmailPart → ExtractAcc
  | .mk mt fn hd bd ps => extractParts (extractPartCore acc (.mk mt fn hd bd ps)) ps

/-- The recursive `extractParts` walk over a list of parts. -/
def extractParts (acc : ExtractAcc) : List GmailPart → ExtractAcc
  | [] => acc
  | p :: rest => extractParts (extractPart acc p) rest

end

/-- A raw Gmail API message (the fields the service reads). -/
structure GmailMessage where
  id : Str
  threadId : Str
  snippet : Option Str
  labelIds : List Str
  internalDate : Int
  payload : Option GmailPart

/-- Result shape of `parseGmailMessage`.  (`from` and `to` are Lean
keywords, so those fields are called `fromAddr` and `toAddr`.) -/
structure ParsedMessage where
  fromAddr : Option Str
  toAddr : Option Str
  cc : Option Str
  subject : Option Str
  body : Str
  htmlBody : Str
  attachments : List AttachInfo
  inlineImages : List AttachInfo

/-- `GoogleService.isForwardedEmail`: subject starts with a forwarding
marker or mentions "forwarded" (an absent or empty subject is falsy). -/
def isForwardedEmail (subject : Option Str) : Bool :=
  match subject with
  | none => false
  | some s =>
    let l := lowerStr s
    strStarts l "fwd:".toList || strStarts l "fw:".toList ||
      strStarts l "전달:".toList || strIncludes l "forwarded".toList

/-- The forwarding boundary markers, in the order the source tries them. -/
def forwardMarkers : List Str :=
  ["---------- Forwarded message ---------".toList,
   "---------- 전달된 메시지 ----------".toList,
   "-------- Original Message --------".toList,
   "원본 메시지".toList]

/-- Restrict the body to the text from the first marker (in list order)
found in it; if none occurs the whole body is searched. -/
def markerSearchBody : List Str → Str → Str
  | [], b => b
  | mk :: rest, b =>
    match indexOfSub b mk with
    | some i => b.drop i
    | none => markerSearchBody rest b

/-- `\s*` as a pattern item. -/
def wsStarI : RItem := .star .ws false

/-- The capture `(.+?<[^>]+>)` shared by the name-and-address patterns. -/
def capNameAddr : List RItem :=
  [.plus .anyNotNL true, .lit "<".toList true, .plus (.notOf ['>']) false,
   .lit ">".toList true]

/-- The capture `([^\n<]+@[^\n\s>]+)` of the bare-address patterns. -/
def capBareAddr : List RItem :=
  [.plus (.notOf ['\n', '<']) false, .lit "@".toList true,
   .plus (.notWsNotOf ['>']) false]

/-- The five sender patterns of `extractOriginalSender`, in source order,
each split into its prefix items and its capturing group. -/
def senderPatterns : List (List RItem × List RItem) :=
  [([.lit "From:".toList true, wsStarI], capNameAddr),
   ([.lit "From:".toList true, wsStarI], capBareAddr),
   ([.lit "보낸".toList true, wsStarI, .lit "사람:".toList true, wsStarI], capNameAddr),
   ([.lit "보낸".toList true, wsStarI, .lit "사람:".toList true, wsStarI], capBareAddr),
   ([.lit "발신자:".toList true, wsStarI], capNameAddr)]

/-- Try the patterns in order on the search body; the first pattern whose
match has a non-empty capture wins and its capture is trimmed. -/
def trySenderPatterns : List (List RItem × List RItem) → Str → Option Str
  | [], _ => none
  | (pre, cap) :: rest, sb =>
    match findFirstCapture pre cap [] sb with
    | some (capt, _) =>
      if capt.isEmpty then trySenderPatterns rest sb else some (trimJs capt)
    | none => trySenderPatterns rest sb

/-- `GoogleService.extractOriginalSender`. -/
def extractOriginalSender (body : Str) : Option Str :=
  if body.isEmpty then none
  else trySenderPatterns senderPatterns (markerSearchBody forwardMarkers body)

/-- `GoogleService.parseGmailMessage`. -/
def parseGmailMessage (m : GmailMessage) : ParsedMessage :=
  let headers := match m.payload with
    | some p => p.headers
    | none => []
  let acc0 : ExtractAcc :=
    match m.payload with
    | some p =>
      if truthy (bodyData p) then
        if p.mimeType = some "text/html".toList then
          { textBody := [], htmlBody := decodeBase64Url ((bodyData p).getD [])
            attachments := [], inlineImages := [] }
        else
          { textBody := decodeBase64Url ((bodyData p).getD []), htmlBody := []
            attachments := [], inlineImages := [] }
      else { textBody := [], htmlBody := [], attachments := [], inlineImages := [] }
    | none => { textBody := [], htmlBody := [], attachments := [], inlineImages := [] }
  let acc :=
    match m.payload with
    | some p => extractParts acc0 p.parts
    | none => acc0
  let subject := getHeaderVal headers "Subject".toList
  let from0 := getHeaderVal headers "From".toList
  let fromF :=
    if isForwardedEmail subject then
      match extractOriginalSender
          (if acc.textBody.isEmpty then acc.htmlBody else acc.textBody) with
      | some o => if o.isEmpty then from0 else some o
      | none => from0
    else from0
  { fromAddr := fromF
    toAddr := getHeaderVal headers "To".toList
    cc := getHeaderVal headers "Cc".toList
    subject := subject
    body := acc.textBody
    htmlBody := acc.htmlBody
    attachments := acc.attachments
    inlineImages := acc.inlineImages }

/-- The envelope `From` header of a raw message (`getHeader('From')`). -/
def envelopeFrom (m : GmailMessage) : Option Str :=
  getHeaderVal
    (match m.payload with
     | some p => p.headers
     | none => []) "From".toList

mutual

/-- A part followed by the preorder of its nested parts. -/
def preorderPart : GmailPart → List GmailPart
  | .mk mt fn hd bd ps => .mk mt fn hd bd ps :: preorderParts ps

/-- The parts of a tree in the order `extractParts` visits them: each
part first, then its nested parts, then its later siblings. -/
def preorderParts : List GmailPart → List GmailPart
  | [] => []
  | p :: rest => preorderPart p ++ preorderParts rest

end

/-- The text-body update of the `extractParts` loop for one visited part
(`if (part.mimeType === 'text/plain' && part.body?.data && !textBody)`). -/
def textStep (t : Str) (p : GmailPart) : Str :=
  if p.mimeType = some "text/plain".toList ∧ truthy (bodyData p) = true ∧ t = [] then
    decodeBase64Url ((bodyData p).getD [])
  else t

/-- The HTML-body update of the `extractParts` loop for one visited part
(`if (part.mimeType === 'text/html' && part.body?.data)`). -/
def htmlStep (h : Str) (p : GmailPart) : Str :=
  if p.mimeType = some "text/html".toList ∧ truthy (bodyData p) = true then
    decodeBase64Url ((bodyData p).getD [])
  else h

/-- A part the text-body assignment actually latches onto: a `text/plain`
part with truthy data whose decoded payload is non-empty. -/
def plainWins (p : GmailPart) : Bool :=
  decide (p.mimeType = some "text/plain".toList) && truthy (bodyData p) &&
    !(decodeBase64Url ((bodyData p).getD [])).isEmpty

/-- A part the HTML-body assignment fires on: a `text/html` part with
truthy data. -/
def htmlHit (p : GmailPart) : Bool :=
  decide (p.mimeType = some "text/html".toList) && truthy (bodyData p)

/-! ## Mailbox synchronisation (`GoogleService.syncUserEmails`)

The `emails` table is the list of rows below.  Columns that do not
influence the sync control flow (thread id, envelope fields, bodies,
search text, label/read/attachment flags) are omitted from the row model;
`receivedAt` is modelled non-null because the sync path always stores the
message's `internalDate` there.  Provider calls are function parameters:
`listFn q pageToken maxResults` models the message-list endpoint and
`fetchMsg id` models the full-message fetch (`none` is a failed fetch,
which the source throws and the per-message loop catches). -/

/-- A persisted row of the `emails` table (sync-relevant columns). -/
structure EmailRow where
  id : Nat
  userId : Nat
  messageId : Str
  receivedAt : Int
deriving Repr, DecidableEq

/-- A page of the Gmail message-list endpoint. -/
structure GmailListPage where
  messages : List Str
  nextPageToken : Option Str

/-- The `receivedAt` of the most recent stored message of the user
(`findOne` ordered by `receivedAt DESC`). -/
def latestReceived (emails : List EmailRow) (userId : Nat) : Option Int :=
  (emails.filter (fun r => r.userId = userId)).foldl
    (fun acc r =>
      match acc with
      | none => some r.receivedAt
      | some m => some (max m r.receivedAt))
    none

/-- Append `after:<n>` to a (possibly empty) base query, as the source's
template literals do. -/
def buildAfterQuery (base : Str) (afterTs : Int) : Str :=
  if base.isEmpty then "after:".toList ++ (toString afterTs).toList
  else base ++ " after:".toList ++ (toString afterTs).toList

/-- The `do … while (isFirstSync && pageToken)` pagination loop.  Returns
the accumulated message ids together with the log of list calls made
(query, page token, page size).  `fuel` bounds the number of pages
followed: the service assumes the provider's `nextPageToken` chain is
finite, and outside a first sync exactly one call is made whenever
`fuel > 0`. -/
def collectPages (listFn : Option Str → Option Str → Nat → GmailListPage)
    (isFirstSync : Bool) (q : Option Str) (pageSize : Nat) :
    Nat → Option Str → List Str × List (Option Str × Option Str × Nat)
  | 0, _ => ([], [])
  | fuel + 1, pageToken =>
    let page := listFn q pageToken pageSize
    if page.messages.isEmpty then ([], [(q, pageToken, pageSize)])
    else if isFirstSync ∧ page.nextPageToken.isSome then
      let rec2 := collectPages listFn isFirstSync q pageSize fuel page.nextPageToken
      (page.messages ++ rec2.1, (q, pageToken, pageSize) :: rec2.2)
    else (page.messages, [(q, pageToken, pageSize)])

/-- `GoogleService.getExistingMessageIds`: the message ids among
`messageIds` that are already stored for this user. -/
def getExistingMessageIds (emails : List EmailRow) (userId : Nat)
    (messageIds : List Str) : List Str :=
  (emails.filter (fun r =>
    r.userId = userId ∧ messageIds.any (fun m2 => m2 = r.messageId))).map (·.messageId)

/-- Surrogate for the database autoincrement on `emails.id`. -/
def nextEmailId (emails : List EmailRow) : Nat :=
  (emails.map (·.id)).foldl max 0 + 1

/-- `GoogleService.fetchAndSaveEmail`, reduced to the columns of
`EmailRow`: fetch the full message (`none` models a failed fetch, thrown
to the caller) and insert a row keyed by the fetched message's own id
with `receivedAt` from its `internalDate`.  The source also parses the
message body into the omitted columns and then best-effort saves each
attachment into the separate attachments table; neither influences the
sync claims. -/
def fetchAndSaveEmail (fetchMsg : Str → Option GmailMessage)
    (emails : List EmailRow) (userId : Nat) (messageId : Str) :
    Option (List EmailRow) :=
  match fetchMsg messageId with
  | none => none
  | some gm =>
    some (emails ++
      [{ id := nextEmailId emails, userId := userId, messageId := gm.id,
         receivedAt := gm.internalDate }])

/-- The per-message save loop: a failure on one message is caught and
skipped, the batch continues. -/
def saveLoop (fetchMsg : Str → Option GmailMessage) (userId : Nat) :
    List Str → List EmailRow → Nat → List EmailRow × Nat
  | [], emails, synced => (emails, synced)
  | mid :: rest, emails, synced =>
    match fetchAndSaveEmail fetchMsg emails userId mid with
    | some emails2 => saveLoop fetchMsg userId rest emails2 (synced + 1)
    | none => saveLoop fetchMsg userId rest emails synced

/-- Observable outcome of one `syncUserEmails` run: the returned counts,
the final `emails` table, the log of provider list calls, and the ids
the provider listed. -/
structure SyncOutcome where
  synced : Nat
  skipped : Nat
  emails : List EmailRow
  calls : List (Option Str × Option Str × Nat)
  listed : List Str
deriving Repr

/-- Steps 2–5 of `syncUserEmails`: early-return on an empty listing,
otherwise diff the listed ids against the stored ones and fetch-and-save
each new id.  Returns (synced, skipped, final table). -/
def syncSavePhase (emails : List EmailRow) (userId : Nat)
    (fetchMsg : Str → Option GmailMessage) (allMessages : List Str) :
    Nat × Nat × List EmailRow :=
  if allMessages.isEmpty then (0, 0, emails)
  else
    let existing := getExistingMessageIds emails userId allMessages
    let newMessages := allMessages.filter (fun mid => !(existing.any (fun e => e = mid)))
    let saved := saveLoop fetchMsg userId newMessages emails 0
    (saved.2, allMessages.length - newMessages.length, saved.1)

/-- `GoogleService.syncUserEmails`.  `threeMonthsAgoMs` is the value of
the first-sync lookback computation (a clock/calendar input) and `fuel`
bounds first-sync pagination as in `collectPages`. -/
def syncUserEmails (emails : List EmailRow) (userId : Nat)
    (optMax : Option Nat) (optQ : Option Str)
    (listFn : Option Str → Option Str → Nat → GmailListPage)
    (fetchMsg : Str → Option GmailMessage)
    (threeMonthsAgoMs : Int) (fuel : Nat) : SyncOutcome :=
  let lastReceived := latestReceived emails userId
  let baseQ := optQ.getD []
  let modeQuery : Bool × Str :=
    match lastReceived with
    | some t => (false, buildAfterQuery baseQ (t.fdiv 1000 + 2))
    | none => (true, buildAfterQuery baseQ (threeMonthsAgoMs.fdiv 1000))
  let isFirstSync := modeQuery.1
  let query := modeQuery.2
  let requested := optMax.getD (if isFirstSync then 500 else 50)
  let pageSize := min requested 500
  let qParam := if query.isEmpty then none else some query
  let listed := collectPages listFn isFirstSync qParam pageSize fuel none
  let phase := syncSavePhase emails userId fetchMsg listed.1
  { synced := phase.1
    skipped := phase.2.1
    emails := phase.2.2
    calls := listed.2
    listed := listed.1 }

/-! ## OAuth token lifecycle (`GoogleOAuthProvider.getValidMailAccessToken`) -/

/-- A row of the `mail_accounts` table (OAuth-relevant columns). -/
structure MailAccount where
  id : Nat
  userId : Nat
  provider : Str
  email : Str
  accessToken : Option Str
  refreshToken : Option Str
  expiresAt : Option Int
  scope : Option Str
  isActive : Bool
  needsReauth : Bool
deriving Repr, DecidableEq

/-- Successful response body of the OAuth refresh-token exchange. -/
structure RefreshData where
  accessToken : Str
  expiresIn : Option Int
  scope : Option Str
deriving Repr

/-- `GoogleOAuthProvider.refreshMailAccountToken`.  `tokenFetch` models
the exchange call (`none` is a provider rejection).  Returns the updated
account and whether the refresh succeeded; on failure `needsReauth` is
set and the source throws. -/
def refreshMailAccountToken (acct : MailAccount) (now : Int)
    (tokenFetch : Option RefreshData) : MailAccount × Bool :=
  if ¬ truthy acct.refreshToken then ({ acct with needsReauth := true }, false)
  else
    match tokenFetch with
    | none => ({ acct with needsReauth := true }, false)
    | some d =>
      ({ acct with
          accessToken := some d.accessToken
          expiresAt := some (match d.expiresIn with
            | some e => if e ≠ 0 then now + e * 1000 else 0
            | none => 0)
          scope := match d.scope with
            | some sc => if sc.isEmpty then acct.scope else some sc
            | none => acct.scope
          needsReauth := false }, true)

/-- `findOne({ where: { userId, provider: 'gmail', isActive: true } })`. -/
def findOneActiveGmail (accounts : List MailAccount) (userId : Nat) :
    Option MailAccount :=
  accounts.find? (fun a => a.userId = userId ∧ a.provider = "gmail".toList ∧ a.isActive)

/-- `repo.save` of a loaded account entity: replace the row with that id. -/
def updateAccount (accounts : List MailAccount) (acct : MailAccount) :
    List MailAccount :=
  accounts.map (fun a => if a.id = acct.id then acct else a)

/-- Observable outcome of `getValidMailAccessToken`: the returned token or
thrown error, the final accounts table, and whether a refresh-token
exchange was attempted. -/
structure TokenResult where
  result : Except Str Str
  accounts : List MailAccount
  didRefresh : Bool

/-- `GoogleOAuthProvider.getValidMailAccessToken`: return the cached token
unless it is missing, has no expiry, or expires within the 60-second
margin; otherwise refresh first. -/
def getValidMailAccessToken (accounts : List MailAccount) (userId : Nat)
    (now : Int) (tokenFetch : Option RefreshData) : TokenResult :=
  match findOneActiveGmail accounts userId with
  | none =>
    { result := .error "No active gmail account found for user".toList
      accounts := accounts, didRefresh := false }
  | some acct =>
    let expiresAtNum : Int := match acct.expiresAt with
      | some e => e
      | none => 0
    let isExpired : Bool :=
      !truthy acct.accessToken || decide (expiresAtNum = 0) ||
        decide (expiresAtNum - 60000 ≤ now)
    if isExpired = false then
      { result := .ok (acct.accessToken.getD []), accounts := accounts
        didRefresh := false }
    else
      let refreshed := refreshMailAccountToken acct now tokenFetch
      let accounts2 := updateAccount accounts refreshed.1
      if refreshed.2 then
        { result := .ok (refreshed.1.accessToken.getD []), accounts := accounts2
          didRefresh := true }
      else
        { result := .error "Failed to refresh token".toList, accounts := accounts2
          didRefresh := true }

/-! ## Evidence-file collection (`EmailAnalysisService.collectFiles`) -/

/-- A row of the `email_attachments` table. -/
structure EmailAttachment where
  id : Nat
  emailId : Nat
  attachmentId : Str
  filename : Str
  mimeType : Option Str
  size : Nat
  contentId : Option Str
  isInline : Bool
  data : Option (List Nat)
deriving Repr, DecidableEq

/-- A file handed to the classifier.  The source stores the payload
base64-encoded (`type: 'base64'`); the encoding is a bijection that is
never inspected, so the payload is carried as raw bytes and the `type`
discriminator is the field `ftype`. -/
structure FileData where
  ftype : Str
  data : List Nat
  mimeType : Str
  filename : Option Str
deriving Repr, DecidableEq

/-- `EmailAnalysisService.decodeHtmlEntities` (all patterns are literals;
only the last has the `i` flag). -/
def decodeHtmlEntities (s : Str) : Str :=
  replaceLit "&#x26;" true "&"
    (replaceLit "&#38;" false "&"
      (replaceLit "&#39;" false "\x27"
        (replaceLit "&quot;" false "\""
          (replaceLit "&gt;" false ">"
            (replaceLit "&lt;" false "<"
              (replaceLit "&amp;" false "&" s))))))

/-- The pattern `/<img[^>]+src\s*=\s*["']([^"']+)["']/gi`, split as
prefix / capture / suffix items. -/
def imgSrcPre : List RItem :=
  [.lit "<img".toList true, .plus (.notOf ['>']) false, .lit "src".toList true,
   .star .ws false, .lit "=".toList true, .star .ws false,
   .one (.oneOf ['"', '\''])]

def imgSrcCap : List RItem := [.plus (.notOf ['"', '\'']) false]

def imgSrcPost : List RItem := [.one (.oneOf ['"', '\''])]

/-- The pattern `/background-image:\s*url\(["']?([^"')]+)["']?\)/gi`. -/
def bgImgPre : List RItem :=
  [.lit "background-image:".toList true, .star .ws false, .lit "url(".toList true,
   .optC (.oneOf ['"', '\''])]

def bgImgCap : List RItem := [.plus (.notOf ['"', '\'', ')']) false]

def bgImgPost : List RItem := [.optC (.oneOf ['"', '\'']), .lit ")".toList true]

/-- `if (url && !urls.includes(url)) urls.push(url)`. -/
def addUrl (urls : List Str) (u : Str) : List Str :=
  if !u.isEmpty && !(urls.any (fun v => v = u)) then urls ++ [u] else urls

/-- `EmailAnalysisService.extractImageUrlsFromHtml`: all `img src` URLs
followed by all `background-image` URLs, each entity-decoded, skipping
empties and duplicates. -/
def extractImageUrlsFromHtml (html : Str) : List Str :=
  let urls1 := (findAllCaptures imgSrcPre imgSrcCap imgSrcPost html).foldl
    (fun acc c => addUrl acc (decodeHtmlEntities c)) []
  (findAllCaptures bgImgPre bgImgCap bgImgPost html).foldl
    (fun acc c => addUrl acc (decodeHtmlEntities c)) urls1

/-- `EmailAnalysisService.isLikelyContentImage`: reject tracking-pixel URL
patterns, then require an image extension or an image-ish path segment. -/
def isLikelyContentImage (url : Str) : Bool :=
  let lowerUrl := lowerStr url
  let trackingPatterns : List String :=
    ["pixel", "track", "beacon", "analytics", "open.gif", "1x1", "spacer",
     "blank", "mailtrack", "email-open", "read-receipt"]
  if trackingPatterns.any (fun p => strIncludes lowerUrl p.toList) then false
  else
    let imageExtensions : List String := [".jpg", ".jpeg", ".png", ".gif", ".webp", ".bmp"]
    imageExtensions.any (fun e => strIncludes lowerUrl e.toList) ||
      strIncludes lowerUrl "/image".toList ||
      strIncludes lowerUrl "/img".toList ||
      strIncludes lowerUrl "/photo".toList

/-- Response of the image-download `fetch`; `contentType` is the
`content-type` header (`none` when absent). -/
structure HttpImageResp where
  ok : Bool
  contentType : Option Str
  body : List Nat
deriving Repr

/-- `imageSize` is an external library; it is a model parameter of type
`List Nat → Option (Nat × Nat)` where `some (w, h)` is a successful call
returning truthy width and height, and `none` covers both a thrown error
and missing/zero dimensions — the source treats all of those as
"dimensions unknown, keep the file". -/
abbrev ImageSizeFn := List Nat → Option (Nat × Nat)

/-- `EmailAnalysisService.downloadImageAsBase64`.  `httpGet` models the
`fetch` (`none` is a network error or the 10-second abort, which the
source catches and maps to `null`). -/
def downloadImageAsBase64 (httpGet : Str → Option HttpImageResp)
    (imageSizeFn : ImageSizeFn) (url : Str) : Option FileData :=
  match httpGet url with
  | none => none
  | some resp =>
    if ¬ resp.ok then none
    else
      let contentType : Str := match resp.contentType with
        | some ct => if ct.isEmpty then "image/jpeg".toList else ct
        | none => "image/jpeg".toList
      if ¬ strStarts contentType "image/".toList then none
      else if resp.body.length < 1024 then none
      else if resp.body.length > 5 * 1024 * 1024 then none
      else
        match imageSizeFn resp.body with
        | some (w, h) =>
          if w < 200 ∨ h < 200 then none
          else some { ftype := "base64".toList, data := resp.body
                      mimeType := contentType, filename := none }
        | none =>
          some { ftype := "base64".toList, data := resp.body
                 mimeType := contentType, filename := none }

/-- Body of the PDF loop of `collectFiles`: skip oversized (more than
10 MB) or payload-less attachments, append the rest. -/
def collectPdfStep (files : List FileData) (att : EmailAttachment) : List FileData :=
  match att.data with
  | some d =>
    if d.length > 10 * 1024 * 1024 then files
    else files ++ [{ ftype := "base64".toList, data := d
                     mimeType := "application/pdf".toList
                     filename := some att.filename }]
  | none => files

/-- Body of the remote-image loop of `collectFiles`: http(s) URLs passing
the tracking-pixel pre-filter are downloaded; accepted downloads are
appended. -/
def collectUrlStep (httpGet : Str → Option HttpImageResp)
    (imageSizeFn : ImageSizeFn) (files : List FileData) (url : Str) :
    List FileData :=
  if strStarts url "http://".toList || strStarts url "https://".toList then
    if isLikelyContentImage url then
      match downloadImageAsBase64 httpGet imageSizeFn url with
      | some f => files ++ [f]
      | none => files
    else files
  else files

/-- Body of the inline-image loop of `collectFiles`: only image MIME
types with a payload of at most 5 MB, and only when the decoded
dimensions are unknown or at least 200×200. -/
def collectInlineStep (imageSizeFn : ImageSizeFn) (files : List FileData)
    (att : EmailAttachment) : List FileData :=
  if (match att.mimeType with
      | some m => strStarts m "image/".toList
      | none => false) = false then files
  else
    match att.data with
    | none => files
    | some d =>
      if d.length > 5 * 1024 * 1024 then files
      else
        let f : FileData :=
          { ftype := "base64".toList, data := d
            mimeType := (att.mimeType.getD []), filename := some att.filename }
        match imageSizeFn d with
        | some (w, h) => if w < 200 ∨ h < 200 then files else files ++ [f]
        | none => files ++ [f]

/-- `EmailAnalysisService.collectFiles` (the version without a total
cap): up to 5 PDF attachments, then every accepted remote image of the
HTML body, then every accepted inline-image attachment. -/
def collectFiles (attachments : List EmailAttachment) (emailId : Nat)
    (htmlBody : Option Str) (httpGet : Str → Option HttpImageResp)
    (imageSizeFn : ImageSizeFn) : List FileData :=
  let pdfAttachments :=
    (attachments.filter (fun a =>
      a.emailId = emailId ∧ a.mimeType = some "application/pdf".toList)).take 5
  let files1 := pdfAttachments.foldl collectPdfStep []
  let files2 :=
    match htmlBody with
    | none => files1
    | some hb =>
      if hb.isEmpty then files1
      else (extractImageUrlsFromHtml hb).foldl (collectUrlStep httpGet imageSizeFn) files1
  let imageAttachments := attachments.filter (fun a => a.emailId = emailId ∧ a.isInline)
  imageAttachments.foldl (collectInlineStep imageSizeFn) files2

/-! ## The analysis engine (`EmailAnalysisService.analyzeEmail`) -/

/-- The classifier's structured response (`PaymentInfo`).  `paymentDate`
is the response's ISO date string parsed to epoch ms; `none` models an
absent or empty string (both falsy at the use site). -/
structure PaymentInfo where
  isPayment : Bool
  amount : Option Rat
  currency : Option Str
  merchant : Option Str
  paymentDate : Option Int
  cardType : Option Str
  paymentType : Option Str
  category : Option Str
  summary : Option Str
deriving Repr, DecidableEq

/-- A row of the `payment_reports` table.  `emailUserId` is the `userId`
of the joined `email` relation (`r.email?.userId`; `none` models a
missing relation row), which the duplicate detector reads after loading
reports with `relations: ['email']`. -/
structure PaymentReport where
  id : Nat
  emailId : Nat
  emailUserId : Option Nat
  isPayment : Bool
  amount : Option Rat
  currency : Option Str
  merchant : Option Str
  paymentDate : Option Int
  cardType : Option Str
  paymentType : Option Str
  category : Option Str
  summary : Option Str
  rawData : Option PaymentInfo
  isDuplicate : Bool
  primaryReportId : Option Nat
  createdAt : Int
deriving Repr, DecidableEq

/-- A row of the `emails` table as read by the analysis service (the same
table as `EmailRow`, restricted to the columns this service touches). -/
structure AEmail where
  id : Nat
  userId : Nat
  fromAddr : Option Str
  subject : Option Str
  body : Option Str
  snippet : Option Str
  htmlBody : Option Str
  receivedAt : Int
  analyzedAt : Option Int
deriving Repr, DecidableEq

/-- The persistent state the analysis service reads and writes. -/
structure AnalysisState where
  emails : List AEmail
  attachments : List EmailAttachment
  reports : List PaymentReport
deriving Repr, DecidableEq

/-- The `paymentReport` relation of an email (`findOne` with
`relations: ['paymentReport']`; `emailId` is unique on the table). -/
def reportForEmail (st : AnalysisState) (emailId : Nat) : Option PaymentReport :=
  st.reports.find? (fun r => r.emailId = emailId)

/-- Surrogate for the database autoincrement on `payment_reports.id`:
fresh with respect to the rows present at insert time. -/
def nextReportId (reports : List PaymentReport) : Nat :=
  (reports.map (·.id)).foldl max 0 + 1

/-- Successful result of `analyzeEmail`. -/
structure AnalyzeOk where
  email : AEmail
  paymentReport : PaymentReport
deriving Repr, DecidableEq

/-- `EmailAnalysisService.analyzeEmail`.  `classify` is the outcome of
the `openaiService.analyzePaymentEmail` call on this message's prompt
(`none` models a thrown classifier error); `now` is the clock at the
`createdAt` column default. -/
def analyzeEmail (st : AnalysisState) (emailId : Nat) (force : Bool)
    (classify : Option PaymentInfo) (httpGet : Str → Option HttpImageResp)
    (imageSizeFn : ImageSizeFn) (now : Int) :
    Except Str (AnalysisState × AnalyzeOk) :=
  match st.emails.find? (fun e => e.id = emailId) with
  | none => .error "이메일을 찾을 수 없습니다.".toList
  | some email =>
    let existing := reportForEmail st email.id
    let proceed : Unit → Except Str (AnalysisState × AnalyzeOk) := fun _ =>
      let _files := collectFiles st.attachments email.id email.htmlBody httpGet imageSizeFn
      match classify with
      | none => .error "classifier call failed".toList
      | some analysis =>
        let reports1 := match existing with
          | some rep => st.reports.filter (fun r => r.id ≠ rep.id)
          | none => st.reports
        let paymentDate : Option Int :=
          if analysis.isPayment then
            match analysis.paymentDate with
            | some d => some d
            | none => some email.receivedAt
          else none
        let report : PaymentReport :=
          { id := nextReportId reports1
            emailId := email.id
            emailUserId := some email.userId
            isPayment := analysis.isPayment
            amount := if analysis.isPayment then analysis.amount else none
            currency := if analysis.isPayment then analysis.currency else none
            merchant := if analysis.isPayment then analysis.merchant else none
            paymentDate := paymentDate
            cardType := if analysis.isPayment then analysis.cardType else none
            paymentType := if analysis.isPayment then analysis.paymentType else none
            category := if analysis.isPayment then analysis.category else none
            summary := analysis.summary
            rawData := some analysis
            isDuplicate := false
            primaryReportId := none
            createdAt := now }
        .ok ({ st with reports := reports1 ++ [report] },
             { email := email, paymentReport := report })
    match existing with
    | some rep => if force then proceed () else .ok (st, { email := email, paymentReport := rep })
    | none => proceed ()

/-! ## The queue consumer (`EmailAnalysisScheduler.processQueue`) -/

/-- An element of the in-memory analysis queue. -/
structure QueueItem where
  emailId : Nat
  userId : Nat
  addedAt : Int
deriving Repr, DecidableEq

/-- Outcome of one `processQueue` run. -/
structure ProcessOutcome where
  queue : List QueueItem
  state : AnalysisState
  processed : Nat
  payments : Nat
  failed : Nat
deriving Repr

/-- The per-item consumer loop: a failing item is counted and dropped
(never re-enqueued); the batch continues.  In this version
`result.paymentReport` is always a (truthy) object, so `payments` counts
every success. -/
def processBatch (classifyFor : Nat → Option PaymentInfo)
    (httpGet : Str → Option HttpImageResp) (imageSizeFn : ImageSizeFn)
    (now : Int) :
    List QueueItem → AnalysisState → Nat → Nat → Nat →
      AnalysisState × Nat × Nat × Nat
  | [], st, p, pay, f => (st, p, pay, f)
  | item :: more, st, p, pay, f =>
    match analyzeEmail st item.emailId false (classifyFor item.emailId)
        httpGet imageSizeFn now with
    | .ok (st2, _) => processBatch classifyFor httpGet imageSizeFn now more st2 (p + 1) (pay + 1) f
    | .error _ => processBatch classifyFor httpGet imageSizeFn now more st p pay (f + 1)

/-- One run of the `processQueue` cron body (the `isProcessing` flag only
coalesces overlapping triggers and is the identity in this sequential
model): splice a batch of 5 off the queue and analyze each item. -/
def processQueue (queue : List QueueItem) (st : AnalysisState)
    (classifyFor : Nat → Option PaymentInfo)
    (httpGet : Str → Option HttpImageResp) (imageSizeFn : ImageSizeFn)
    (now : Int) : ProcessOutcome :=
  if queue.isEmpty then
    { queue := queue, state := st, processed := 0, payments := 0, failed := 0 }
  else
    let batch := queue.take 5
    let rest := queue.drop 5
    let r := processBatch classifyFor httpGet imageSizeFn now batch st 0 0 0
    { queue := rest, state := r.1, processed := r.2.1, payments := r.2.2.1
      failed := r.2.2.2 }

/-! ## Duplicate detection (`detectDuplicates` / `markDuplicates` /
`resetDuplicates`) -/

/-- `isSameDay(date1, date2, toleranceDays)`: absent dates pass; otherwise
truncate both to midnight and compare the day difference.  With the UTC
convention `setHours(0,0,0,0)` floors to a multiple of 86,400,000 ms, and
`diffDays <= toleranceDays` over an exact multiple of a day equals the
integer comparison below. -/
def isSameDay (date1 date2 : Option Int) (toleranceDays : Nat) : Bool :=
  match date1, date2 with
  | some d1, some d2 =>
    let m1 := 86400000 * (d1.fdiv 86400000)
    let m2 := 86400000 * (d2.fdiv 86400000)
    decide ((m1 - m2).natAbs ≤ toleranceDays * 86400000)
  | _, _ => true

/-- The characters removed by `replace(/[,.()\[\]{}'"]/g, '')`. -/
def punctSet : Str := [',', '.', '(', ')', '[', ']', '\x7b', '\x7d', '\'', '"']

/-- The corporate-suffix alternatives of
`/\s+(inc|llc|ltd|co|corp|corporation)\.?$/i`. -/
def corpSuffixWords : List Str :=
  ["inc", "llc", "ltd", "co", "corp", "corporation"].map (·.toList)

/-- Does `t` consist of a non-empty whitespace run followed by exactly one
suffix word and an optional final period (case-insensitively)? -/
def corpSuffixAt (t : Str) : Bool :=
  let ws := t.takeWhile isJsWs
  let rest := lowerStr (t.drop ws.length)
  !ws.isEmpty && corpSuffixWords.any (fun w =>
    decide (rest = w) || decide (rest = w ++ ['.']))

/-- `replace(/\s+(inc|llc|ltd|co|corp|corporation)\.?$/i, '')`.  Because
of the `$` anchor, a match is a decomposition of the string into a prefix
followed by whitespace, one alternative and an optional period; the
engine's leftmost preference picks the smallest such prefix, which the
scan below reproduces. -/
def stripCorpSuffix (s : Str) : Str :=
  match (List.range (s.length + 1)).find? (fun i => corpSuffixAt (s.drop i)) with
  | some i => s.take i
  | none => s

/-- The pattern `/\s*\(.*?\)\s*/g` of the parenthetical-noise removal. -/
def parenNoise : List RItem :=
  [.star .ws false, .lit "(".toList false, .star .anyNotNL true,
   .lit ")".toList false, .star .ws false]

/-- The pattern `/\s+/g` of the whitespace collapse. -/
def wsRunPat : List RItem := [.plus .ws false]

/-- `normalizeMerchant`: lower-case, strip punctuation, strip a corporate
suffix, remove parenthetical annotations (a no-op after the punctuation
strip, kept for fidelity), collapse whitespace, trim. -/
def normalizeMerchant (merchant : Str) : Str :=
  let s1 := lowerStr merchant
  let s2 := s1.filter (fun c => !punctSet.contains c)
  let s3 := stripCorpSuffix s2
  let s4 := replaceAllStr parenNoise " ".toList s3
  let s5 := replaceAllStr wsRunPat " ".toList s4
  trimJs s5

/-- `isSimilarMerchant`: a missing (or empty) name passes; otherwise the
normalized names must be equal, contain one another, or share a first
word of length at least 3. -/
def isSimilarMerchant (a b : Option Str) : Bool :=
  if !truthy a || !truthy b then true
  else
    let normA := normalizeMerchant (a.getD [])
    let normB := normalizeMerchant (b.getD [])
    if normA = normB then true
    else if strIncludes normA normB || strIncludes normB normA then true
    else
      let wa := ((splitWsJs normA).head?).getD []
      let wb := ((splitWsJs normB).head?).getD []
      if !wa.isEmpty && !wb.isEmpty && decide (3 ≤ wa.length) then decide (wa = wb)
      else false

/-- `isPotentialDuplicate`: dates within ±1 day, amounts within 0.01 when
both present and non-zero, and similar merchants.  (JS numbers are
modelled as exact rationals, so the 0.01 epsilon is exact.) -/
def isPotentialDuplicate (a b : PaymentReport) : Bool :=
  if isSameDay a.paymentDate b.paymentDate 1 = false then false
  else if truthyQ a.amount && truthyQ b.amount &&
      decide ((1 : Rat) / 100 < |a.amount.getD 0 - b.amount.getD 0|) then false
  else if isSimilarMerchant a.merchant b.merchant = false then false
  else true

/-- `getDetailScore`: the weighted count of populated fields. -/
def getDetailScore (r : PaymentReport) : Nat :=
  (if truthyQ r.amount then 10 else 0) +
  (if truthy r.merchant then 5 else 0) +
  (if r.paymentDate.isSome then 5 else 0) +
  (if truthy r.cardType then 3 else 0) +
  (if truthy r.currency then 2 else 0) +
  (if truthy r.paymentType then 2 else 0) +
  (if truthy r.category then 2 else 0) +
  (if (match r.summary with | some s => decide (20 < s.length) | none => false)
    then 1 else 0)

/-- The `reduce` body of `selectPrimaryReport` on a non-empty list:
a later report replaces the current best only with a strictly higher
detail score. -/
def selectPrimaryFrom (h : PaymentReport) (t : List PaymentReport) : PaymentReport :=
  t.foldl (fun best current =>
    if getDetailScore best < getDetailScore current then current else best) h

/-- `selectPrimaryReport` (`reduce` throws on an empty array, hence the
`Option`; the detector only applies it to non-empty groups). -/
def selectPrimaryReport : List PaymentReport → Option PaymentReport
  | [] => none
  | h :: t => some (selectPrimaryFrom h t)

/-- The `order: { paymentDate: 'ASC', createdAt: 'ASC' }` comparison, with
`NULLS LAST` as Postgres defaults for ascending order. -/
def reportLE (a b : PaymentReport) : Bool :=
  match a.paymentDate, b.paymentDate with
  | none, none => decide (a.createdAt ≤ b.createdAt)
  | none, some _ => false
  | some _, none => true
  | some x, some y =>
    decide (x < y) || (decide (x = y) && decide (a.createdAt ≤ b.createdAt))

def insertReport (r : PaymentReport) : List PaymentReport → List PaymentReport
  | [] => [r]
  | h :: t => if reportLE h r then h :: insertReport r t else r :: h :: t

/-- Stable sort by `reportLE`; rows tied on both keys keep table order
(the database leaves that order unspecified, and nothing below depends
on it). -/
def sortReports (l : List PaymentReport) : List PaymentReport :=
  l.foldl (fun acc r => insertReport r acc) []

/-- The report pool of `detectDuplicates`: payment-flagged, not yet
duplicate-flagged, sorted, then restricted to the owner (`find` with the
`where`/`order` options followed by the `userId` filter). -/
def dupPool (userId : Nat) (reports : List PaymentReport) : List PaymentReport :=
  (sortReports (reports.filter (fun r => r.isPayment ∧ r.isDuplicate = false))).filter
    (fun r => r.emailUserId = some userId)

/-- One group found by `detectDuplicates`. -/
structure DupGroup where
  primary : PaymentReport
  duplicates : List PaymentReport
deriving Repr, DecidableEq

/-- All members of a group (the source's `allInGroup`). -/
def DupGroup.members (g : DupGroup) : List PaymentReport :=
  g.primary :: g.duplicates

/-- The inner scan of `detectDuplicates`: collect the later, not yet
processed pool entries that are potential duplicates of `r`, adding each
to the processed set as it is found. -/
def scanDups (r : PaymentReport) : List PaymentReport → List Nat →
    List PaymentReport × List Nat
  | [], proc => ([], proc)
  | o :: rest, proc =>
    if o.id ∈ proc then scanDups r rest proc
    else if isPotentialDuplicate r o then
      (o :: (scanDups r rest (o.id :: proc)).1, (scanDups r rest (o.id :: proc)).2)
    else scanDups r rest proc

/-- The outer loop of `detectDuplicates` over the pool: each unprocessed
report heads a scan; when duplicates are found the group's primary is the
member with the highest detail score and the remaining members become the
group's duplicates. -/
def detectGo : List PaymentReport → List Nat → List DupGroup
  | [], _ => []
  | r :: rest, proc =>
    if r.id ∈ proc then detectGo rest proc
    else if (scanDups r rest proc).1.isEmpty then detectGo rest (scanDups r rest proc).2
    else
      { primary := selectPrimaryFrom r (scanDups r rest proc).1
        duplicates := (r :: (scanDups r rest proc).1).filter
          (fun x => x.id ≠ (selectPrimaryFrom r (scanDups r rest proc).1).id) } ::
        detectGo rest (r.id :: (scanDups r rest proc).2)

/-- `EmailAnalysisService.detectDuplicates` (its groups; the returned
`duplicatesFound` count is the total size of the duplicate lists). -/
def detectDuplicates (userId : Nat) (reports : List PaymentReport) : List DupGroup :=
  detectGo (dupPool userId reports) []

def setDupFlag (primaryId : Nat) (r : PaymentReport) : PaymentReport :=
  { r with isDuplicate := true, primaryReportId := some primaryId }

def clearDupFlag (r : PaymentReport) : PaymentReport :=
  { r with isDuplicate := false, primaryReportId := none }

/-- `repo.update(id, patch)`: patch the row(s) with that id. -/
def updateReportById (reports : List PaymentReport) (targetId : Nat)
    (f : PaymentReport → PaymentReport) : List PaymentReport :=
  reports.map (fun r => if r.id = targetId then f r else r)

/-- `EmailAnalysisService.markDuplicates`: persist each detected group by
flagging its duplicates with a pointer to the group primary. -/
def markDuplicates (userId : Nat) (reports : List PaymentReport) :
    List PaymentReport :=
  (detectDuplicates userId reports).foldl
    (fun st g => g.duplicates.foldl
      (fun st2 d => updateReportById st2 d.id (setDupFlag g.primary.id)) st)
    reports

/-- `EmailAnalysisService.resetDuplicates`: clear the flag and pointer of
every duplicate-flagged report of the owner. -/
def resetDuplicates (userId : Nat) (reports : List PaymentReport) :
    List PaymentReport :=
  let ids := (reports.filter (fun r =>
    r.isDuplicate ∧ r.emailUserId = some userId)).map (·.id)
  ids.foldl (fun st i => updateReportById st i clearDupFlag) reports

/-- The two persisted mutations of the duplicate detector, as operations
on the reports table. -/
inductive DupOp where
  | mark (userId : Nat) : DupOp
  | reset (userId : Nat) : DupOp

def applyDupOp : DupOp → List PaymentReport → List PaymentReport
  | .mark u, s => markDuplicates u s
  | .reset u, s => resetDuplicates u s

def runDupOps (ops : List DupOp) (s : List PaymentReport) : List PaymentReport :=
  ops.foldl (fun st op => applyDupOp op st) s

/-- The §3 invariant: a duplicate-flagged report's `primaryReportId`
references a non-duplicate report. -/
def dupInvariant (s : List PaymentReport) : Prop :=
  ∀ r ∈ s, r.isDuplicate = true →
    ∃ p ∈ s, r.primaryReportId = some p.id ∧ p.isDuplicate = false

/-- No report in the table carries a duplicate flag. -/
def noDupFlags (s : List PaymentReport) : Prop :=
  ∀ r ∈ s, r.isDuplicate = false

/-- No report of owner `u` carries a duplicate flag. -/
def userClean (u : Nat) (s : List PaymentReport) : Prop :=
  ∀ r ∈ s, r.emailUserId = some u → r.isDuplicate = false

/-- The per-record effect of persisting the detected groups: the first
group listing the record's id among its duplicates flags it with that
group's primary. -/
def applyMarks (gs : List DupGroup) (r : PaymentReport) : PaymentReport :=
  gs.foldl
    (fun r2 g =>
      if r2.id ∈ g.duplicates.map (·.id) then setDupFlag g.primary.id r2 else r2)
    r

/-- The ids cleared by `resetDuplicates u`. -/
def resetIds (u : Nat) (s : List PaymentReport) : List Nat :=
  (s.filter (fun r => r.isDuplicate ∧ r.emailUserId = some u)).map (·.id)

/-- Strengthened form of the §3 invariant used inductively: row ids are
unique (they are primary keys) and each duplicate's primary is a
non-duplicate report of the same owner. -/
def dupInvariantS (s : List PaymentReport) : Prop :=
  (s.map (·.id)).Nodup ∧
  ∀ r ∈ s, r.isDuplicate = true →
    ∃ p ∈ s, r.primaryReportId = some p.id ∧ p.isDuplicate = false ∧
      p.emailUserId = r.emailUserId

instance decDupInvariant (s : List PaymentReport) : Decidable (dupInvariant s) :=
  inferInstanceAs (Decidable (∀ r ∈ s, r.isDuplicate = true →
    ∃ p ∈ s, r.primaryReportId = some p.id ∧ p.isDuplicate = false))

instance decNoDupFlags (s : List PaymentReport) : Decidable (noDupFlags s) :=
  inferInstanceAs (Decidable (∀ r ∈ s, r.isDuplicate = false))

instance decUserClean (u : Nat) (s : List PaymentReport) : Decidable (userClean u s) :=
  inferInstanceAs (Decidable (∀ r ∈ s, r.emailUserId = some u → r.isDuplicate = false))

/-- States reachable from `s0` when `markDuplicates u` is only applied to
states in which owner `u` has no duplicate flags (the discipline of
resetting before re-marking). -/
inductive CleanReach (s0 : List PaymentReport) : List PaymentReport → Prop where
  | init : CleanReach s0 s0
  | reset (u : Nat) (s : List PaymentReport) :
      CleanReach s0 s → CleanReach s0 (resetDuplicates u s)
  | mark (u : Nat) (s : List PaymentReport) :
      CleanReach s0 s → userClean u s → CleanReach s0 (markDuplicates u s)

/-! ## Concrete inputs used by witnesses and counterexamples -/

/-- An account whose token expires 5 minutes after the witness clock. -/
def w5acct : MailAccount :=
  { id := 1, userId := 7, provider := "gmail".toList, email := "a@b.c".toList
    accessToken := some "tok".toList, refreshToken := some "ref".toList
    expiresAt := some 1300000, scope := none, isActive := true, needsReauth := false }

/-- An account whose token expires 30 seconds after the witness clock. -/
def w30acct : MailAccount :=
  { w5acct with expiresAt := some 1030000 }

/-- A successful refresh-exchange response. -/
def wRefresh : RefreshData :=
  { accessToken := "tok2".toList, expiresIn := some 3600, scope := none }

/-- A message row that has never been analyzed. -/
def exAEmail : AEmail :=
  { id := 1, userId := 1, fromAddr := some "x@y.z".toList
    subject := some "Receipt".toList, body := some "hello".toList
    snippet := none, htmlBody := none, receivedAt := 123, analyzedAt := none }

/-- A download stub that always fails (no remote images fetched). -/
def exHttp : Str → Option HttpImageResp := fun _ => none

/-- An `imageSize` stub that never reports dimensions. -/
def exImgSz : ImageSizeFn := fun _ => none

/-- A non-payment classifier verdict. -/
def exInfo : PaymentInfo :=
  { isPayment := false, amount := none, currency := none, merchant := none
    paymentDate := none, cardType := none, paymentType := none, category := none
    summary := some "not a payment".toList }

/-- Analysis state with one unanalyzed message and no reports. -/
def exSt : AnalysisState := { emails := [exAEmail], attachments := [], reports := [] }

/-- A small PDF attachment row of email 1. -/
def c2pdf (i : Nat) : EmailAttachment :=
  { id := i, emailId := 1, attachmentId := ("p".toList ++ (toString i).toList)
    filename := ("f".toList ++ (toString i).toList ++ ".pdf".toList)
    mimeType := some "application/pdf".toList, size := 4, contentId := none
    isInline := false, data := some [1, 2, 3, 4] }

/-- A small inline PNG attachment row of email 1. -/
def c2img (i : Nat) : EmailAttachment :=
  { id := i, emailId := 1, attachmentId := ("i".toList ++ (toString i).toList)
    filename := ("g".toList ++ (toString i).toList ++ ".png".toList)
    mimeType := some "image/png".toList, size := 1, contentId := some "cid".toList
    isInline := true, data := some [9] }

/-- Five PDFs and two inline images on the same email. -/
def c2atts : List EmailAttachment :=
  [c2pdf 1, c2pdf 2, c2pdf 3, c2pdf 4, c2pdf 5, c2img 6, c2img 7]

/-- An `imageSize` stub reporting 300×300 for every payload. -/
def c2okSz : ImageSizeFn := fun _ => some (300, 300)

/-- A fixed inline image row used to realize arbitrarily long file lists. -/
def c2inline : EmailAttachment := c2img 1

/-- A payment report of owner 1: "Starbucks Inc.", day 0 (no amount, so
the amount check passes vacuously). -/
def c8a : PaymentReport :=
  { id := 1, emailId := 1, emailUserId := some 1, isPayment := true
    amount := none, currency := none
    merchant := some "Starbucks Inc.".toList, paymentDate := some 0
    cardType := none, paymentType := none, category := none, summary := none
    rawData := none, isDuplicate := false, primaryReportId := none, createdAt := 0 }

/-- A payment report of owner 1: "starbucks", one day later, with a
card type (hence a higher detail score than `c8a`). -/
def c8b : PaymentReport :=
  { id := 2, emailId := 2, emailUserId := some 1, isPayment := true
    amount := none, currency := none
    merchant := some "starbucks".toList, paymentDate := some 86400000
    cardType := some "visa".toList, paymentType := none, category := none
    summary := none, rawData := none, isDuplicate := false
    primaryReportId := none, createdAt := 1 }

/-- Three clean payment reports of owner 1 on consecutive days with the
same merchant and strictly increasing detail scores.  Days 0 and 2 are more than one day
apart, so the pairs (0,1) and (1,2) group but (0,2) does not. -/
def c9a : PaymentReport := c8a
def c9b : PaymentReport :=
  { c8b with merchant := some "Starbucks Inc.".toList }
def c9c : PaymentReport :=
  { c9b with id := 3, emailId := 3, paymentDate := some 172800000
             currency := some "USD".toList, createdAt := 2 }

def c9state : List PaymentReport := [c9a, c9b, c9c]

/-- A `text/plain` part whose data is truthy but decodes to the empty
string (`'='` terminates base64 decoding immediately). -/
def c6plain1 : GmailPart :=
  .mk (some "text/plain".toList) none [] (some ⟨none, none, some "=".toList⟩) []

/-- A `text/plain` part decoding to `"hi"`. -/
def c6plain2 : GmailPart :=
  .mk (some "text/plain".toList) none [] (some ⟨none, none, some "aGk".toList⟩) []

/-- A `text/html` part decoding to `"<b>"`. -/
def c6html1 : GmailPart :=
  .mk (some "text/html".toList) none [] (some ⟨none, none, some "PGI-".toList⟩) []

/-- A `text/html` part decoding to `"<i>"`. -/
def c6html2 : GmailPart :=
  .mk (some "text/html".toList) none [] (some ⟨none, none, some "PGk-".toList⟩) []

/-- A multipart payload whose first plain part decodes empty. -/
def c6payload : GmailPart :=
  .mk (some "multipart/alternative".toList) none [] none
    [c6plain1, c6plain2, c6html1, c6html2]

/-- The raw message of the C6 counterexample. -/
def c6msg : GmailMessage :=
  { id := "m6".toList, threadId := "t6".toList, snippet := none, labelIds := []
    internalDate := 0, payload := some c6payload }

/-- A `text/plain` part decoding to `"yo"`. -/
def c6wplain2 : GmailPart :=
  .mk (some "text/plain".toList) none [] (some ⟨none, none, some "eW8".toList⟩) []

/-- A multipart payload with two plain and two html parts whose first
plain part decodes non-empty. -/
def c6wpayload : GmailPart :=
  .mk (some "multipart/alternative".toList) none [] none
    [c6plain2, c6wplain2, c6html1, c6html2]

/-- The raw message of the C6 witness. -/
def c6wmsg : GmailMessage :=
  { id := "m6w".toList, threadId := "t6w".toList, snippet := none, labelIds := []
    internalDate := 0, payload := some c6wpayload }

/-- Base64url payload of the forwarded body
`"---------- Forwarded message ---------\nFrom: Jane <jane@x.com>\n\nhello"`. -/
def c7data : Str :=
  "LS0tLS0tLS0tLSBGb3J3YXJkZWQgbWVzc2FnZSAtLS0tLS0tLS0KRnJvbTogSmFuZSA8amFuZUB4LmNvbT4KCmhlbGxv".toList

/-- Payload of the forwarded message: subject `Fwd: receipt`, envelope
sender Boss, plain body containing the forwarding boundary and the
original `From:` line. -/
def c7payload : GmailPart :=
  .mk (some "text/plain".toList) none
    [⟨"From".toList, "Boss <boss@corp.com>".toList⟩,
     ⟨"Subject".toList, "Fwd: receipt".toList⟩,
     ⟨"To".toList, "me@corp.com".toList⟩]
    (some ⟨none, none, some c7data⟩) []

/-- The raw forwarded message of the C7 witness. -/
def c7msg : GmailMessage :=
  { id := "m7".toList, threadId := "t7".toList, snippet := none, labelIds := []
    internalDate := 0, payload := some c7payload }

/-! ## Theorems -/

/-- C5: `getValidMailAccessToken` returns the cached access token without
refreshing if and only if `now < expiresAt - 60000`; when it does, the
cached token is returned and no account row is touched.  (The hypotheses
pin down the cases the claim quantifies over: an active gmail account
with a cached token and a non-zero stored expiry; a missing token or
expiry always triggers a refresh, consistent with the claim's "or
missing" clause.) -/
theorem C5_token_refresh_margin
    (accounts : List MailAccount) (userId : Nat) (now : Int)
    (tokenFetch : Option RefreshData) (acct : MailAccount) (e : Int)
    (hfind : findOneActiveGmail accounts userId = some acct)
    (htok : truthy acct.accessToken = true)
    (hexp : acct.expiresAt = some e) (hne : e ≠ 0) :
    ((getValidMailAccessToken accounts userId now tokenFetch).didRefresh = false
       ↔ now < e - 60000) ∧
    (now < e - 60000 →
      (getValidMailAccessToken accounts userId now tokenFetch).result =
        Except.ok (acct.accessToken.getD []) ∧
      (getValidMailAccessToken accounts userId now tokenFetch).accounts = accounts) := by
  unfold getValidMailAccessToken
  rw [hfind]
  simp only [hexp, htok, Bool.not_true, Bool.false_or, hne, decide_eq_true_eq]
  by_cases h : e - 60000 ≤ now
  · have hd : decide (e - 60000 ≤ now) = true := decide_eq_true h
    simp only [hd, Bool.or_true, apply_ite TokenResult.didRefresh, ite_self]
    constructor
    · simp
      omega
    · intro hlt
      omega
  · simp [h, hne, apply_ite TokenResult.didRefresh, ite_self]
    omega

/-- Witness for C5: a token expiring in 5 minutes is returned without a
refresh; one expiring in 30 seconds triggers the refresh exchange. -/
theorem C5_token_refresh_margin_witness :
    (getValidMailAccessToken [w5acct] 7 1000000 none).didRefresh = false ∧
    (getValidMailAccessToken [w30acct] 7 1000000 (some wRefresh)).didRefresh = true := by
  constructor
  · exact (C5_token_refresh_margin [w5acct] 7 1000000 none w5acct 1300000 rfl
      (by decide) rfl (by decide)).1.mpr (by decide)
  · have h2 := (C5_token_refresh_margin [w30acct] 7 1000000 (some wRefresh) w30acct
      1030000 rfl (by decide) rfl (by decide)).1
    cases hb : (getValidMailAccessToken [w30acct] 7 1000000 (some wRefresh)).didRefresh
    · exact absurd (h2.mp hb) (by decide)
    · rfl

/-- C1 counterexample: a message with `analyzedAt = null` is analyzed
successfully (a report row is persisted for it), yet its `analyzedAt`
is still `null` afterwards — `analyzeEmail` never writes the field. -/
theorem C1_counterexample :
    ((analyzeEmail exSt 1 false (some exInfo) exHttp exImgSz 55).toOption.map
      (fun p => (p.1.emails.map (fun e => (e.id, e.analyzedAt)),
                 p.1.reports.map (·.emailId)))) =
      some ([(1, (none : Option Int))], [1]) := by
  rfl

/-- C1 (amended): a successful `analyzeEmail` leaves the `emails` table
(and hence every message's `analyzedAt`) unchanged; completion is
recorded solely by the persisted `PaymentReport` row, which the final
state contains for the analyzed message. -/
theorem C1_analyzedAt_never_set (st : AnalysisState) (emailId : Nat) (force : Bool)
    (classify : Option PaymentInfo) (hg : Str → Option HttpImageResp)
    (isz : ImageSizeFn) (now : Int) (st2 : AnalysisState) (res : AnalyzeOk)
    (hok : analyzeEmail st emailId force classify hg isz now = .ok (st2, res)) :
    st2.emails = st.emails ∧ res.paymentReport ∈ st2.reports ∧
      res.paymentReport.emailId = emailId := by
  unfold analyzeEmail at hok
  cases hfind : st.emails.find? (fun e => e.id = emailId) with
  | none => rw [hfind] at hok; cases hok
  | some email =>
    rw [hfind] at hok
    have hid : email.id = emailId := by
      have := List.find?_some hfind
      simpa using this
    simp only at hok
    cases hrep : reportForEmail st email.id with
    | some rep =>
      rw [hrep] at hok
      cases force with
      | false =>
        simp only [if_neg (by simp : ¬ (false = true))] at hok
        cases hok
        refine ⟨rfl, ?_, ?_⟩
        · exact List.mem_of_find?_eq_some hrep
        · show rep.emailId = emailId
          have := List.find?_some hrep
          simp only [decide_eq_true_eq] at this
          exact this.trans hid
      | true =>
        simp only [if_pos rfl] at hok
        cases hclass : classify with
        | none => rw [hclass] at hok; cases hok
        | some analysis =>
          rw [hclass] at hok
          cases hok
          exact ⟨rfl, by simp, by simpa using hid⟩
    | none =>
      rw [hrep] at hok
      cases hclass : classify with
      | none => rw [hclass] at hok; cases hok
      | some analysis =>
        rw [hclass] at hok
        cases hok
        exact ⟨rfl, by simp, by simpa using hid⟩

/-- Witness for the amended C1 theorem at the concrete example state. -/
theorem C1_analyzedAt_never_set_witness :
    ∃ st2 res, analyzeEmail exSt 1 false (some exInfo) exHttp exImgSz 55 =
      Except.ok (st2, res) ∧ st2.emails = exSt.emails := by
  cases hok : analyzeEmail exSt 1 false (some exInfo) exHttp exImgSz 55 with
  | error e =>
    have hIsOk : (analyzeEmail exSt 1 false (some exInfo) exHttp exImgSz 55).isOk = true := by
      rfl
    rw [hok] at hIsOk
    cases hIsOk
  | ok pair =>
    obtain ⟨st2, res⟩ := pair
    exact ⟨st2, res, rfl,
      (C1_analyzedAt_never_set exSt 1 false (some exInfo) exHttp exImgSz 55
        st2 res hok).1⟩

/-- C2 counterexample: on an email with five small PDFs and two inline
images, `collectFiles` returns 7 files — more than the spec's total cap
of 5 — and does not stop once 5 files have been gathered. -/
theorem C2_counterexample :
    5 < (collectFiles c2atts 1 none exHttp exImgSz).length := by
  decide

/-- C2 (amended): only the PDF stage of `collectFiles` is bounded (at
most 5 PDF rows are considered); the inline-image stage has no cap and no
early stop, so the total file count is unbounded: for every `n` there is
an attachment table yielding exactly `n` collected files. -/
theorem C2_no_total_cap :
    (∀ (atts : List EmailAttachment) (emailId : Nat)
        (hg : Str → Option HttpImageResp) (isz : ImageSizeFn),
      (∀ a ∈ atts, a.isInline = false) →
      (collectFiles atts emailId none hg isz).length ≤ 5) ∧
    (∀ (n : Nat) (hg : Str → Option HttpImageResp),
      (collectFiles (List.replicate n c2inline) 1 none hg c2okSz).length = n) := by
  constructor
  · intro atts emailId hg isz hnoInline
    have hstage3 : atts.filter (fun a => a.emailId = emailId ∧ a.isInline) = [] := by
      apply List.filter_eq_nil_iff.mpr
      intro a ha
      simp [hnoInline a ha]
    have hpdfLen : ∀ (l : List EmailAttachment) (init : List FileData),
        (l.foldl collectPdfStep init).length ≤ init.length + l.length := by
      intro l
      induction l with
      | nil => intro init; simp
      | cons a t ih =>
        intro init
        refine le_trans (ih _) ?_
        have hstep : (collectPdfStep init a).length ≤ init.length + 1 := by
          unfold collectPdfStep
          cases a.data with
          | none => simp
          | some d =>
            by_cases hd : d.length > 10 * 1024 * 1024
            · simp [hd]
            · simp [hd]
        simp only [List.length_cons]
        omega
    unfold collectFiles
    rw [hstage3]
    simp only [List.foldl_nil]
    refine le_trans (hpdfLen _ _) ?_
    have := List.length_take_le 5
      (atts.filter (fun a => a.emailId = emailId ∧ a.mimeType = some "application/pdf".toList))
    simp only [List.length_nil, Nat.zero_add]
    exact this
  · intro n hg
    have hstep : ∀ files : List FileData,
        collectInlineStep c2okSz files c2inline = files ++
          [{ ftype := "base64".toList, data := [9]
             mimeType := "image/png".toList, filename := "g1.png".toList }] := by
      intro files
      rfl
    have hfold : ∀ (m : Nat) (files : List FileData),
        ((List.replicate m c2inline).foldl (collectInlineStep c2okSz) files).length =
          files.length + m := by
      intro m
      induction m with
      | zero => intro files; simp
      | succ k ih =>
        intro files
        rw [List.replicate_succ, List.foldl_cons, hstep, ih]
        simp
        omega
    unfold collectFiles
    have hrep : (List.replicate n c2inline).filter
        (fun a => a.emailId = 1 ∧ a.isInline) = List.replicate n c2inline := by
      apply List.filter_eq_self.mpr
      intro a ha
      have := List.eq_of_mem_replicate ha
      subst this
      decide
    have hpdfnil : (List.replicate n c2inline).filter
        (fun a => a.emailId = 1 ∧ a.mimeType = some "application/pdf".toList) = [] := by
      apply List.filter_eq_nil_iff.mpr
      intro a ha
      have := List.eq_of_mem_replicate ha
      subst this
      decide
    rw [hrep, hpdfnil]
    simpa using hfold n []

/-- Witness for the bounded-PDF-stage conjunct of the amended C2 theorem
(six PDF rows, no inline rows: at most 5 files are collected). -/
theorem C2_no_total_cap_witness :
    (∀ a ∈ [c2pdf 1, c2pdf 2, c2pdf 3, c2pdf 4, c2pdf 5, c2pdf 6], a.isInline = false) ∧
    (collectFiles [c2pdf 1, c2pdf 2, c2pdf 3, c2pdf 4, c2pdf 5, c2pdf 6] 1 none
      exHttp exImgSz).length ≤ 5 :=
  ⟨by decide, C2_no_total_cap.1 _ 1 exHttp exImgSz (by decide)⟩

/-- C10: when the classifier call fails, `analyzeEmail` propagates the
error (so no report row is created or deleted and the `emails` row is
untouched — an `analyzeEmail` error returns no new state at all), and the
queue consumer drops the processed batch without re-enqueueing failed
items and keeps processing: every batch item is accounted for as either
processed or failed. -/
theorem C10_classifier_failure :
    (∀ (st : AnalysisState) (emailId : Nat) (force : Bool)
        (hg : Str → Option HttpImageResp) (isz : ImageSizeFn) (now : Int)
        (email : AEmail),
      st.emails.find? (fun e => e.id = emailId) = some email →
      (force = true ∨ reportForEmail st email.id = none) →
      analyzeEmail st emailId force none hg isz now =
        Except.error "classifier call failed".toList) ∧
    (∀ (queue : List QueueItem) (st : AnalysisState)
        (cf : Nat → Option PaymentInfo) (hg : Str → Option HttpImageResp)
        (isz : ImageSizeFn) (now : Int),
      (processQueue queue st cf hg isz now).queue = queue.drop 5 ∧
      (processQueue queue st cf hg isz now).processed +
        (processQueue queue st cf hg isz now).failed = (queue.take 5).length) := by
  constructor
  · intro st emailId force hg isz now email hfind hnoskip
    unfold analyzeEmail
    rw [hfind]
    simp only
    cases hrep : reportForEmail st email.id with
    | some rep =>
      cases force with
      | true => simp
      | false =>
        rcases hnoskip with h | h
        · cases h
        · rw [h] at hrep; cases hrep
    | none => simp
  · intro queue st cf hg isz now
    have hbatch : ∀ (batch : List QueueItem) (st0 : AnalysisState) (p pay f : Nat),
        (processBatch cf hg isz now batch st0 p pay f).2.1 +
          (processBatch cf hg isz now batch st0 p pay f).2.2.2 =
          p + f + batch.length := by
      intro batch
      induction batch with
      | nil => intro st0 p pay f; simp [processBatch]
      | cons item more ih =>
        intro st0 p pay f
        unfold processBatch
        cases analyzeEmail st0 item.emailId false (cf item.emailId) hg isz now with
        | ok pr =>
          simp only
          rw [ih]
          simp only [List.length_cons]
          omega
        | error e =>
          simp only
          rw [ih]
          simp only [List.length_cons]
          omega
    by_cases hq : queue.isEmpty
    · have : queue = [] := List.isEmpty_iff.mp hq
      subst this
      simp [processQueue]
    · unfold processQueue
      rw [if_neg hq]
      simp only
      exact ⟨by trivial, by rw [hbatch]; simp⟩

/-- Witness for C10 at concrete inputs: the classifier failure surfaces
as the propagated error on the example state, and a one-item queue whose
item fails is fully drained with one failure counted. -/
theorem C10_classifier_failure_witness :
    analyzeEmail exSt 1 false none exHttp exImgSz 0 =
      Except.error "classifier call failed".toList ∧
    (processQueue [{ emailId := 1, userId := 1, addedAt := 0 }] exSt
      (fun _ => none) exHttp exImgSz 0).queue = [] ∧
    (processQueue [{ emailId := 1, userId := 1, addedAt := 0 }] exSt
      (fun _ => none) exHttp exImgSz 0).processed +
      (processQueue [{ emailId := 1, userId := 1, addedAt := 0 }] exSt
        (fun _ => none) exHttp exImgSz 0).failed = 1 := by
  refine ⟨C10_classifier_failure.1 exSt 1 false exHttp exImgSz 0 exAEmail rfl
    (Or.inr rfl), ?_, ?_⟩
  · exact (C10_classifier_failure.2 [{ emailId := 1, userId := 1, addedAt := 0 }]
      exSt (fun _ => none) exHttp exImgSz 0).1
  · exact (C10_classifier_failure.2 [{ emailId := 1, userId := 1, addedAt := 0 }]
      exSt (fun _ => none) exHttp exImgSz 0).2

/-- Every id accumulated by the pagination loop was returned by some list
call with the same query and page size. -/
theorem collectPages_mem (listFn : Option Str → Option Str → Nat → GmailListPage)
    (isF : Bool) (q : Option Str) (ps : Nat) :
    ∀ (fuel : Nat) (pt : Option Str) (mid : Str),
      mid ∈ (collectPages listFn isF q ps fuel pt).1 →
      ∃ pt2, mid ∈ (listFn q pt2 ps).messages := by
  intro fuel
  induction fuel with
  | zero => intro pt mid h; simp [collectPages] at h
  | succ k ih =>
    intro pt mid h
    unfold collectPages at h
    by_cases hemp : (listFn q pt ps).messages.isEmpty
    · rw [if_pos hemp] at h
      simp at h
    · rw [if_neg hemp] at h
      by_cases hcont : isF = true ∧ (listFn q pt ps).nextPageToken.isSome
      · rw [if_pos hcont] at h
        simp only at h
        rcases List.mem_append.mp h with h1 | h2
        · exact ⟨pt, h1⟩
        · exact ih _ mid h2
      · rw [if_neg hcont] at h
        exact ⟨pt, h⟩

/-- When every listed id is already persisted for the user, the
diff-and-save phase inserts nothing: zero synced, everything skipped, and
the table is returned unchanged. -/
theorem syncSavePhase_all_existing (emails : List EmailRow) (userId : Nat)
    (fetchMsg : Str → Option GmailMessage) (allMessages : List Str)
    (h : ∀ mid ∈ allMessages, ∃ r ∈ emails, r.userId = userId ∧ r.messageId = mid) :
    syncSavePhase emails userId fetchMsg allMessages =
      (0, allMessages.length, emails) := by
  unfold syncSavePhase
  by_cases hemp : allMessages.isEmpty
  · rw [if_pos hemp]
    have : allMessages = [] := List.isEmpty_iff.mp hemp
    subst this
    rfl
  · rw [if_neg hemp]
    have hnew : allMessages.filter
        (fun mid => !((getExistingMessageIds emails userId allMessages).any
          (fun e => e = mid))) = [] := by
      apply List.filter_eq_nil_iff.mpr
      intro mid hmid
      obtain ⟨r, hr, hru, hrm⟩ := h mid hmid
      have hmem : r.messageId ∈ getExistingMessageIds emails userId allMessages := by
        unfold getExistingMessageIds
        apply List.mem_map.mpr
        refine ⟨r, ?_, rfl⟩
        apply List.mem_filter.mpr
        refine ⟨hr, ?_⟩
        simp only [decide_eq_true_eq]
        exact ⟨hru, List.any_eq_true.mpr ⟨mid, hmid, by simp [hrm]⟩⟩
      have : (getExistingMessageIds emails userId allMessages).any
          (fun e => e = mid) = true :=
        List.any_eq_true.mpr ⟨r.messageId, hmem, by simp [hrm]⟩
      simp [this]
    simp only [hnew]
    simp [saveLoop]

/-- C3: re-running the sync when the provider lists only already-persisted
ids yields `synced = 0` and leaves the `emails` table unchanged — in
particular no second row with an existing (user, messageId) pair is
inserted, because the batched existence lookup filters every listed id
out before any insert. -/
theorem C3_idempotent_resync (emails : List EmailRow) (userId : Nat)
    (optMax : Option Nat) (optQ : Option Str)
    (listFn : Option Str → Option Str → Nat → GmailListPage)
    (fetchMsg : Str → Option GmailMessage) (tm : Int) (fuel : Nat)
    (hAll : ∀ (q pt : Option Str) (sz : Nat) (mid : Str),
      mid ∈ (listFn q pt sz).messages →
      ∃ r ∈ emails, r.userId = userId ∧ r.messageId = mid) :
    (syncUserEmails emails userId optMax optQ listFn fetchMsg tm fuel).synced = 0 ∧
    (syncUserEmails emails userId optMax optQ listFn fetchMsg tm fuel).emails =
      emails := by
  have hp : ∀ (isF : Bool) (q : Option Str) (sz : Nat),
      syncSavePhase emails userId fetchMsg (collectPages listFn isF q sz fuel none).1 =
        (0, (collectPages listFn isF q sz fuel none).1.length, emails) := by
    intro isF q sz
    apply syncSavePhase_all_existing
    intro mid hmid
    obtain ⟨pt2, hpt⟩ := collectPages_mem listFn isF q sz fuel none mid hmid
    exact hAll q pt2 sz mid hpt
  unfold syncUserEmails
  simp only
  rw [hp]
  exact ⟨rfl, rfl⟩

/-- Witness for C3: a provider that re-lists the single stored message id
produces a second run with `synced = 0` and an unchanged table. -/
theorem C3_idempotent_resync_witness :
    (syncUserEmails [{ id := 1, userId := 4, messageId := "m1".toList, receivedAt := 5000 }]
      4 none none (fun _ _ _ => { messages := ["m1".toList], nextPageToken := none })
      (fun _ => none) 0 3).synced = 0 ∧
    (syncUserEmails [{ id := 1, userId := 4, messageId := "m1".toList, receivedAt := 5000 }]
      4 none none (fun _ _ _ => { messages := ["m1".toList], nextPageToken := none })
      (fun _ => none) 0 3).emails =
      [{ id := 1, userId := 4, messageId := "m1".toList, receivedAt := 5000 }] := by
  apply C3_idempotent_resync
  intro q pt sz mid hmid
  simp only [List.mem_singleton] at hmid
  subst hmid
  exact ⟨{ id := 1, userId := 4, messageId := "m1".toList, receivedAt := 5000 },
    by simp, rfl, rfl⟩

/-- C4: with at least one persisted message (latest received at `T` ms), a
sync issues exactly one provider list call — query `after:(T div 1000)+2`
with no page token and page size 50 — never follows `nextPageToken`, and,
for a provider honouring the `after:` filter (`hsem`), every listed id was
received at or after second `(T div 1000)+2`; in particular a message
received during the boundary second `T div 1000` is not re-fetched. -/
theorem C4_incremental_cursor (emails : List EmailRow) (userId : Nat)
    (listFn : Option Str → Option Str → Nat → GmailListPage)
    (fetchMsg : Str → Option GmailMessage) (tm : Int) (fuel : Nat)
    (T : Int) (msgSec : Str → Int)
    (hlast : latestReceived emails userId = some T)
    (hfuel : 0 < fuel)
    (hsem : ∀ (pt : Option Str) (sz : Nat) (mid : Str),
      mid ∈ (listFn (some (buildAfterQuery [] (T.fdiv 1000 + 2))) pt sz).messages →
      T.fdiv 1000 + 2 ≤ msgSec mid) :
    (syncUserEmails emails userId none none listFn fetchMsg tm fuel).calls =
      [(some (buildAfterQuery [] (T.fdiv 1000 + 2)), none, 50)] ∧
    (∀ mid ∈ (syncUserEmails emails userId none none listFn fetchMsg tm fuel).listed,
      T.fdiv 1000 + 2 ≤ msgSec mid) := by
  obtain ⟨k, rfl⟩ : ∃ k, fuel = k + 1 := ⟨fuel - 1, by omega⟩
  unfold syncUserEmails
  rw [hlast]
  simp only [Option.getD_none, Option.getD_some]
  have hq : (buildAfterQuery [] (T.fdiv 1000 + 2)).isEmpty = false := by
    unfold buildAfterQuery
    simp
  rw [hq]
  simp only [Bool.false_eq_true, if_false]
  unfold collectPages
  by_cases hemp : (listFn (some (buildAfterQuery [] (T.fdiv 1000 + 2))) none
      (min 50 500)).messages.isEmpty
  · rw [if_pos hemp]
    constructor
    · rfl
    · intro mid hmid
      simp at hmid
  · rw [if_neg hemp]
    have hcond : ¬ ((false : Bool) = true ∧
        (listFn (some (buildAfterQuery [] (T.fdiv 1000 + 2))) none
          (min 50 500)).nextPageToken.isSome) := by
      simp
    rw [if_neg hcond]
    constructor
    · rfl
    · intro mid hmid
      exact hsem none (min 50 500) mid hmid

/-- Witness for C4: one stored message received at 10,000 ms; the single
list call carries `after:12` and the listed id is received later than the
boundary second. -/
theorem C4_incremental_cursor_witness :
    (syncUserEmails [{ id := 1, userId := 4, messageId := "m1".toList, receivedAt := 10000 }]
      4 none none (fun _ _ _ => { messages := ["m2".toList], nextPageToken := some "t".toList })
      (fun _ => none) 0 2).calls =
      [(some (buildAfterQuery [] 12), none, 50)] ∧
    (∀ mid ∈ (syncUserEmails [{ id := 1, userId := 4, messageId := "m1".toList, receivedAt := 10000 }]
      4 none none (fun _ _ _ => { messages := ["m2".toList], nextPageToken := some "t".toList })
      (fun _ => none) 0 2).listed, (12 : Int) ≤ 99) := by
  have h := C4_incremental_cursor
    [{ id := 1, userId := 4, messageId := "m1".toList, receivedAt := 10000 }] 4
    (fun _ _ _ => { messages := ["m2".toList], nextPageToken := some "t".toList })
    (fun _ => none) 0 2 10000 (fun _ => 99) rfl (by decide)
    (fun pt sz mid hmid => (by decide : (10000 : Int).fdiv 1000 + 2 ≤ (99 : Int)))
  exact ⟨h.1, fun mid hm => h.2 mid hm⟩

/-- C8: when the owner's pool consists of two records whose payment dates
are within one day, whose amounts agree within 0.01 when both present,
and whose merchants are similar after normalization, duplicate detection
produces a single group containing both, whose primary is the member with
the (strictly) higher detail score — the first member on a tie. -/
theorem C8_duplicate_grouping (s : List PaymentReport) (u : Nat)
    (a b : PaymentReport)
    (hpool : dupPool u s = [a, b])
    (hid : a.id ≠ b.id)
    (hdate : isSameDay a.paymentDate b.paymentDate 1 = true)
    (hamt : truthyQ a.amount = true → truthyQ b.amount = true →
      |a.amount.getD 0 - b.amount.getD 0| ≤ 1 / 100)
    (hmerch : isSimilarMerchant a.merchant b.merchant = true) :
    ∃ g, detectDuplicates u s = [g] ∧ a ∈ g.members ∧ b ∈ g.members ∧
      g.primary = (if getDetailScore a < getDetailScore b then b else a) ∧
      getDetailScore g.primary = max (getDetailScore a) (getDetailScore b) := by
  have hpot : isPotentialDuplicate a b = true := by
    unfold isPotentialDuplicate
    rw [hdate]
    have h2 : (truthyQ a.amount && truthyQ b.amount &&
        decide ((1 : Rat) / 100 < |a.amount.getD 0 - b.amount.getD 0|)) = false := by
      by_cases ha : truthyQ a.amount = true
      · by_cases hb : truthyQ b.amount = true
        · have hle := hamt ha hb
          have : ¬ ((1 : Rat) / 100 < |a.amount.getD 0 - b.amount.getD 0|) :=
            not_lt.mpr hle
          simp only [ha, hb, Bool.true_and]
          exact decide_eq_false this
        · simp [Bool.eq_false_iff.mpr hb]
      · simp [Bool.eq_false_iff.mpr ha]
    rw [h2]
    simp [hmerch]
  have hscan : scanDups a [b] [] = ([b], [b.id]) := by
    unfold scanDups
    rw [if_neg (by simp), if_pos hpot]
    rfl
  have hgo : detectGo [a, b] [] =
      [{ primary := selectPrimaryFrom a [b]
         duplicates := [a, b].filter (fun x => x.id ≠ (selectPrimaryFrom a [b]).id) }] := by
    unfold detectGo
    rw [if_neg (by simp)]
    simp only [hscan]
    rw [if_neg (by simp)]
    unfold detectGo
    rw [if_pos (by simp)]
    unfold detectGo
    rfl
  have hprim : selectPrimaryFrom a [b] =
      (if getDetailScore a < getDetailScore b then b else a) := by
    unfold selectPrimaryFrom
    simp [List.foldl]
  unfold detectDuplicates
  rw [hpool, hgo]
  refine ⟨_, rfl, ?_, ?_, hprim, ?_⟩
  · by_cases hsc : getDetailScore a < getDetailScore b
    · have : (selectPrimaryFrom a [b]).id = b.id := by rw [hprim, if_pos hsc]
      unfold DupGroup.members
      simp only [this]
      right
      apply List.mem_filter.mpr
      simp [hid]
    · have : selectPrimaryFrom a [b] = a := by rw [hprim, if_neg hsc]
      unfold DupGroup.members
      simp [this]
  · by_cases hsc : getDetailScore a < getDetailScore b
    · have : selectPrimaryFrom a [b] = b := by rw [hprim, if_pos hsc]
      unfold DupGroup.members
      simp [this]
    · have : (selectPrimaryFrom a [b]).id = a.id := by rw [hprim, if_neg hsc]
      unfold DupGroup.members
      simp only [this]
      right
      apply List.mem_filter.mpr
      simp [Ne.symm hid]
  · rw [hprim]
    by_cases hsc : getDetailScore a < getDetailScore b
    · rw [if_pos hsc]
      show getDetailScore b = max (getDetailScore a) (getDetailScore b)
      omega
    · rw [if_neg hsc]
      show getDetailScore a = max (getDetailScore a) (getDetailScore b)
      omega

/-- Witness for C8: "Starbucks Inc." (day 0) and "starbucks" (day 1, same
amount, higher detail score) form one group with the latter as primary. -/
theorem C8_duplicate_grouping_witness :
    ∃ g, detectDuplicates 1 [c8a, c8b] = [g] ∧ c8a ∈ g.members ∧ c8b ∈ g.members ∧
      g.primary = (if getDetailScore c8a < getDetailScore c8b then c8b else c8a) ∧
      getDetailScore g.primary = max (getDetailScore c8a) (getDetailScore c8b) :=
  C8_duplicate_grouping [c8a, c8b] 1 c8a c8b (by decide) (by decide) (by decide)
    (fun h _ => absurd h (by decide)) (by decide)

/-- C9 counterexample: starting from a flag-free three-report state and
running `markDuplicates` twice (a sequence of the named operations), the
first run marks report 1 with primary 2, and the second run groups report
2 (still unflagged, as the pool only excludes flagged rows) with report 3
and flags it — leaving report 1 pointing at a record whose `isDuplicate`
flag is now true, violating the invariant. -/
theorem C9_counterexample :
    noDupFlags c9state ∧
    ¬ dupInvariant (runDupOps [DupOp.mark 1, DupOp.mark 1] c9state) := by
  constructor
  · decide
  · decide

/-- Folding id-keyed updates with an id-preserving idempotent patch is a
single map over the table. -/
theorem foldl_update_eq_map (f : PaymentReport → PaymentReport)
    (hfid : ∀ r, (f r).id = r.id) (hff : ∀ r, f (f r) = f r) :
    ∀ (ids : List Nat) (st : List PaymentReport),
      ids.foldl (fun st2 i => updateReportById st2 i f) st =
        st.map (fun r => if r.id ∈ ids then f r else r) := by
  intro ids
  induction ids with
  | nil =>
    intro st
    simp
  | cons i rest ih =>
    intro st
    rw [List.foldl_cons, ih]
    unfold updateReportById
    rw [List.map_map]
    apply List.map_congr_left
    intro r _
    by_cases hri : r.id = i
    · by_cases hmem : r.id ∈ rest
      · simp [Function.comp, hri, hfid, hff, hmem]
      · simp [Function.comp, hri, hfid, hmem]
        intro hi
        exact absurd hi (hri ▸ hmem)
    · by_cases hmem : r.id ∈ rest
      · simp [Function.comp, hri, hmem]
      · simp [Function.comp, hri, hmem]

/-- `resetDuplicates` as a single map over the table. -/
theorem resetDuplicates_eq_map (u : Nat) (s : List PaymentReport) :
    resetDuplicates u s =
      s.map (fun r => if r.id ∈ resetIds u s then clearDupFlag r else r) := by
  unfold resetDuplicates resetIds
  exact foldl_update_eq_map clearDupFlag (fun r => rfl) (fun r => rfl) _ s

/-- `markDuplicates` as a single map applying `applyMarks` of the
detected groups to every row. -/
theorem markDuplicates_eq_map (u : Nat) (s : List PaymentReport) :
    markDuplicates u s = s.map (applyMarks (detectDuplicates u s)) := by
  unfold markDuplicates
  generalize detectDuplicates u s = gs
  induction gs generalizing s with
  | nil =>
    simp only [List.foldl_nil, show applyMarks [] = id from rfl, List.map_id]
  | cons g rest ih =>
    rw [List.foldl_cons]
    have hinner : g.duplicates.foldl
        (fun st2 d => updateReportById st2 d.id (setDupFlag g.primary.id)) s =
        s.map (fun r =>
          if r.id ∈ g.duplicates.map (·.id) then setDupFlag g.primary.id r else r) := by
      have h1 := List.foldl_map (fun d : PaymentReport => d.id)
        (fun st2 i => updateReportById st2 i (setDupFlag g.primary.id))
        g.duplicates s
      rw [← h1]
      exact foldl_update_eq_map (setDupFlag g.primary.id) (fun r => rfl) (fun r => rfl)
        _ s
    rw [hinner, ih, List.map_map]
    apply List.map_congr_left
    intro r _
    simp [applyMarks, Function.comp]

/-- Rows not listed as a duplicate of any group are unchanged by
`applyMarks`. -/
theorem applyMarks_unmarked (gs : List DupGroup) (r : PaymentReport)
    (h : ∀ g ∈ gs, r.id ∉ g.duplicates.map (·.id)) : applyMarks gs r = r := by
  induction gs with
  | nil => rfl
  | cons g rest ih =>
    unfold applyMarks
    rw [List.foldl_cons, if_neg (h g (by simp))]
    exact ih (fun g2 hg2 => h g2 (by simp [hg2]))

/-- `applyMarks` never changes a row's id. -/
theorem applyMarks_id (gs : List DupGroup) (r : PaymentReport) :
    (applyMarks gs r).id = r.id := by
  induction gs generalizing r with
  | nil => rfl
  | cons g rest ih =>
    unfold applyMarks
    rw [List.foldl_cons]
    by_cases hmem : r.id ∈ g.duplicates.map (·.id)
    · rw [if_pos hmem]
      exact (ih (setDupFlag g.primary.id r)).trans rfl
    · rw [if_neg hmem]
      exact ih r

/-- When the groups' member ids are pairwise disjoint, a row listed as a
duplicate of group `g` ends up flagged with `g`'s primary. -/
theorem applyMarks_marked (gs : List DupGroup)
    (hdisj : List.Pairwise
      (fun g1 g2 => ∀ x ∈ g1.members, ∀ y ∈ g2.members, x.id ≠ y.id) gs)
    (r : PaymentReport) (g : DupGroup) (hg : g ∈ gs)
    (hmem : r.id ∈ g.duplicates.map (·.id)) :
    applyMarks gs r = setDupFlag g.primary.id r := by
  induction gs with
  | nil => cases hg
  | cons g1 rest ih =>
    obtain ⟨d, hd, hdid⟩ := List.mem_map.mp hmem
    rcases List.mem_cons.mp hg with rfl | hgr
    · unfold applyMarks
      rw [List.foldl_cons, if_pos hmem]
      have hlater : ∀ g2 ∈ rest, (setDupFlag g.primary.id r).id ∉
          g2.duplicates.map (·.id) := by
        intro g2 hg2 hin
        obtain ⟨d2, hd2, hd2id⟩ := List.mem_map.mp hin
        have := (List.pairwise_cons.mp hdisj).1 g2 hg2 d
          (by exact List.mem_cons_of_mem _ hd) d2 (List.mem_cons_of_mem _ hd2)
        exact this (hdid.trans hd2id.symm)
      exact applyMarks_unmarked rest (setDupFlag g.primary.id r) hlater
    · unfold applyMarks
      rw [List.foldl_cons]
      have hnot1 : r.id ∉ g1.duplicates.map (·.id) := by
        intro hin
        obtain ⟨d1, hd1, hd1id⟩ := List.mem_map.mp hin
        have := (List.pairwise_cons.mp hdisj).1 g hgr d1
          (List.mem_cons_of_mem _ hd1) d (List.mem_cons_of_mem _ hd)
        exact this (by rw [hd1id, hdid])
      rw [if_neg hnot1]
      exact ih (List.pairwise_cons.mp hdisj).2 hgr

/-- The reduce of `selectPrimaryReport` picks a member of the group. -/
theorem selectPrimaryFrom_mem (h : PaymentReport) (t : List PaymentReport) :
    selectPrimaryFrom h t ∈ h :: t := by
  unfold selectPrimaryFrom
  induction t generalizing h with
  | nil => simp
  | cons a t2 ih =>
    rw [List.foldl_cons]
    by_cases hsc : getDetailScore h < getDetailScore a
    · rw [if_pos hsc]
      exact List.mem_cons_of_mem _ (ih a)
    · rw [if_neg hsc]
      rcases List.mem_cons.mp (ih h) with h1 | h1
      · rw [h1]
        exact List.mem_cons_self _ _
      · exact List.mem_cons_of_mem _ (List.mem_cons_of_mem _ h1)

/-- Membership is preserved by the stable insertion. -/
theorem mem_insertReport (r x : PaymentReport) :
    ∀ l : List PaymentReport, x ∈ insertReport r l ↔ x = r ∨ x ∈ l := by
  intro l
  induction l with
  | nil => simp [insertReport]
  | cons h t ih =>
    unfold insertReport
    by_cases hle : reportLE h r = true
    · rw [if_pos hle]
      constructor
      · intro hx
        rcases List.mem_cons.mp hx with h1 | h1
        · exact Or.inr (List.mem_cons.mpr (Or.inl h1))
        · rcases ih.mp h1 with h2 | h2
          · exact Or.inl h2
          · exact Or.inr (List.mem_cons.mpr (Or.inr h2))
      · intro hx
        rcases hx with h1 | h1
        · exact List.mem_cons.mpr (Or.inr (ih.mpr (Or.inl h1)))
        · rcases List.mem_cons.mp h1 with h2 | h2
          · exact List.mem_cons.mpr (Or.inl h2)
          · exact List.mem_cons.mpr (Or.inr (ih.mpr (Or.inr h2)))
    · rw [if_neg hle, List.mem_cons]

/-- Membership is preserved by the sort. -/
theorem mem_sortReports (x : PaymentReport) (l : List PaymentReport) :
    x ∈ sortReports l ↔ x ∈ l := by
  unfold sortReports
  have haux : ∀ (l2 : List PaymentReport) (acc : List PaymentReport),
      x ∈ l2.foldl (fun a r => insertReport r a) acc ↔ x ∈ acc ∨ x ∈ l2 := by
    intro l2
    induction l2 with
    | nil => simp
    | cons h t ih =>
      intro acc
      rw [List.foldl_cons, ih, mem_insertReport]
      simp only [List.mem_cons]
      tauto
  rw [haux]
  simp

/-- Pool rows come from the table and satisfy the pool filters. -/
theorem mem_dupPool (u : Nat) (s : List PaymentReport) (x : PaymentReport)
    (hx : x ∈ dupPool u s) :
    x ∈ s ∧ x.isPayment = true ∧ x.isDuplicate = false ∧ x.emailUserId = some u := by
  unfold dupPool at hx
  have h1 := List.mem_filter.mp hx
  have h2 := (mem_sortReports x _).mp h1.1
  have h3 := List.mem_filter.mp h2
  refine ⟨h3.1, ?_, ?_, ?_⟩
  · have := h3.2
    simp only [decide_eq_true_eq] at this
    exact this.1
  · have := h3.2
    simp only [decide_eq_true_eq] at this
    exact this.2
  · have := h1.2
    simpa using this

/-- The inner scan collects later pool entries that were not yet
processed, and its resulting processed set is the input set plus the ids
it collected. -/
theorem scanDups_facts (r : PaymentReport) :
    ∀ (l : List PaymentReport) (proc : List Nat),
      (∀ o ∈ (scanDups r l proc).1, o ∈ l ∧ o.id ∉ proc) ∧
      (∀ x : Nat, x ∈ (scanDups r l proc).2 ↔
        x ∈ proc ∨ x ∈ (scanDups r l proc).1.map (·.id)) := by
  intro l
  induction l with
  | nil =>
    intro proc
    simp [scanDups]
  | cons o rest ih =>
    intro proc
    unfold scanDups
    by_cases h1 : o.id ∈ proc
    · rw [if_pos h1]
      exact ⟨fun o2 ho2 => ⟨List.mem_cons_of_mem _ ((ih proc).1 o2 ho2).1,
        ((ih proc).1 o2 ho2).2⟩, (ih proc).2⟩
    · rw [if_neg h1]
      by_cases h2 : isPotentialDuplicate r o = true
      · rw [if_pos h2]
        constructor
        · intro o2 ho2
          rcases List.mem_cons.mp ho2 with rfl | hmem
          · exact ⟨List.mem_cons_self _ _, h1⟩
          · have hsub := (ih (o.id :: proc)).1 o2 hmem
            exact ⟨List.mem_cons_of_mem _ hsub.1,
              fun hx => hsub.2 (List.mem_cons_of_mem _ hx)⟩
        · intro x
          rw [(ih (o.id :: proc)).2 x]
          simp only [List.mem_cons, List.map_cons]
          tauto
      · rw [if_neg h2]
        exact ⟨fun o2 ho2 => ⟨List.mem_cons_of_mem _ ((ih proc).1 o2 ho2).1,
          ((ih proc).1 o2 ho2).2⟩, (ih proc).2⟩

/-- Structure of the groups produced by the outer loop: every member
comes from the pool suffix and was unprocessed, a group's duplicates all
have ids different from the group primary's, and distinct groups' members
have pairwise distinct ids. -/
theorem detectGo_facts :
    ∀ (l : List PaymentReport) (proc : List Nat),
      (∀ g ∈ detectGo l proc,
        (∀ m ∈ g.members, m ∈ l ∧ m.id ∉ proc) ∧
        (∀ d ∈ g.duplicates, d.id ≠ g.primary.id)) ∧
      List.Pairwise (fun g1 g2 => ∀ x ∈ g1.members, ∀ y ∈ g2.members, x.id ≠ y.id)
        (detectGo l proc) := by
  intro l
  induction l with
  | nil =>
    intro proc
    simp [detectGo]
  | cons r rest ih =>
    intro proc
    unfold detectGo
    by_cases h1 : r.id ∈ proc
    · rw [if_pos h1]
      exact ⟨fun g hg =>
        ⟨fun m hm => ⟨List.mem_cons_of_mem _ (((ih proc).1 g hg).1 m hm).1,
          (((ih proc).1 g hg).1 m hm).2⟩, ((ih proc).1 g hg).2⟩, (ih proc).2⟩
    · rw [if_neg h1]
      by_cases h2 : (scanDups r rest proc).1.isEmpty
      · rw [if_pos h2]
        have hprocsub : ∀ x ∈ proc, x ∈ (scanDups r rest proc).2 :=
          fun x hx => ((scanDups_facts r rest proc).2 x).mpr (Or.inl hx)
        exact ⟨fun g hg =>
          ⟨fun m hm =>
            ⟨List.mem_cons_of_mem _ ((((ih (scanDups r rest proc).2).1 g hg).1 m hm).1),
             fun hx => ((((ih (scanDups r rest proc).2).1 g hg).1 m hm).2) (hprocsub _ hx)⟩,
           ((ih (scanDups r rest proc).2).1 g hg).2⟩,
          (ih (scanDups r rest proc).2).2⟩
      · rw [if_neg h2]
        have hscan := scanDups_facts r rest proc
        have hmemsub : ∀ m : PaymentReport,
            (m = selectPrimaryFrom r (scanDups r rest proc).1 ∨
              m ∈ (r :: (scanDups r rest proc).1).filter
                (fun x => x.id ≠ (selectPrimaryFrom r (scanDups r rest proc).1).id)) →
            m ∈ r :: (scanDups r rest proc).1 := by
          intro m hm
          rcases hm with rfl | hmem
          · exact selectPrimaryFrom_mem r (scanDups r rest proc).1
          · exact (List.mem_filter.mp hmem).1
        have hmemfacts : ∀ m ∈ r :: (scanDups r rest proc).1,
            m ∈ r :: rest ∧ m.id ∉ proc := by
          intro m hm
          rcases List.mem_cons.mp hm with rfl | hmem
          · exact ⟨List.mem_cons_self _ _, h1⟩
          · exact ⟨List.mem_cons_of_mem _ ((hscan.1 m hmem).1), (hscan.1 m hmem).2⟩
        have hidin : ∀ m ∈ r :: (scanDups r rest proc).1,
            m.id ∈ r.id :: (scanDups r rest proc).2 := by
          intro m hm
          rcases List.mem_cons.mp hm with rfl | hmem
          · exact List.mem_cons_self _ _
          · exact List.mem_cons_of_mem _
              (((hscan.2 m.id).mpr (Or.inr (List.mem_map_of_mem _ hmem))))
        have hRec := ih (r.id :: (scanDups r rest proc).2)
        have hprocsub2 : ∀ x ∈ proc, x ∈ r.id :: (scanDups r rest proc).2 :=
          fun x hx => List.mem_cons_of_mem _ (((hscan.2 x)).mpr (Or.inl hx))
        constructor
        · intro g hg
          rcases List.mem_cons.mp hg with rfl | hgr
          · constructor
            · intro m hm
              simp only [DupGroup.members] at hm
              exact hmemfacts m (hmemsub m (List.mem_cons.mp hm))
            · intro d hd
              have := (List.mem_filter.mp hd).2
              simpa using this
          · exact ⟨fun m hm => ⟨List.mem_cons_of_mem _ (((hRec.1 g hgr).1 m hm).1),
              fun hx => ((hRec.1 g hgr).1 m hm).2 (hprocsub2 _ hx)⟩,
              (hRec.1 g hgr).2⟩
        · apply List.pairwise_cons.mpr
          refine ⟨?_, hRec.2⟩
          intro g2 hg2 x hx y hy
          intro heq
          have hyid : y.id ∉ r.id :: (scanDups r rest proc).2 :=
            ((hRec.1 g2 hg2).1 y hy).2
          simp only [DupGroup.members] at hx
          have hxid : x.id ∈ r.id :: (scanDups r rest proc).2 :=
            hidin x (hmemsub x (List.mem_cons.mp hx))
          rw [heq] at hxid
          exact hyid hxid

/-- The groups detected for owner `u`: every member comes from the
duplicate pool (payment rows of that owner with no flag), a group's
duplicates all differ in id from its primary, and distinct groups'
member ids are pairwise disjoint. -/
theorem detectDuplicates_facts (u : Nat) (s : List PaymentReport) :
    (∀ g ∈ detectDuplicates u s,
      (∀ m ∈ g.members, m ∈ dupPool u s) ∧
      ∀ d ∈ g.duplicates, d.id ≠ g.primary.id) ∧
    List.Pairwise (fun g1 g2 => ∀ x ∈ g1.members, ∀ y ∈ g2.members, x.id ≠ y.id)
      (detectDuplicates u s) := by
  unfold detectDuplicates
  have h := detectGo_facts (dupPool u s) []
  exact ⟨fun g hg => ⟨fun m hm => ((h.1 g hg).1 m hm).1, (h.1 g hg).2⟩, h.2⟩

/-- Member-id disjointness holds between any two distinct detected
groups, regardless of their order in the group list. -/
theorem detectDuplicates_disjoint (u : Nat) (s : List PaymentReport) :
    ∀ g1 ∈ detectDuplicates u s, ∀ g2 ∈ detectDuplicates u s, g1 ≠ g2 →
      ∀ x ∈ g1.members, ∀ y ∈ g2.members, x.id ≠ y.id := by
  intro g1 hg1 g2 hg2 hne
  have hsym : Symmetric (fun g1 g2 : DupGroup =>
      ∀ x ∈ g1.members, ∀ y ∈ g2.members, x.id ≠ y.id) := by
    intro a b hab x hx y hy
    exact (hab y hy x hx).symm
  exact (detectDuplicates_facts u s).2.forall hsym hg1 hg2 hne

/-- Mapping an id-preserving patch over the table leaves the id column
unchanged. -/
theorem map_ids_of_preserve (f : PaymentReport → PaymentReport)
    (h : ∀ r, (f r).id = r.id) (s : List PaymentReport) :
    (s.map f).map (·.id) = s.map (·.id) := by
  rw [List.map_map]
  apply List.map_congr_left
  intro r _
  exact h r

/-- A duplicate is a member of its group. -/
theorem mem_members_of_dup (g : DupGroup) (d : PaymentReport)
    (hd : d ∈ g.duplicates) : d ∈ g.members := by
  unfold DupGroup.members
  exact List.mem_cons_of_mem _ hd

/-- The primary is a member of its group. -/
theorem primary_mem_members (g : DupGroup) : g.primary ∈ g.members := by
  unfold DupGroup.members
  exact List.mem_cons_self _ _

/-- `resetDuplicates` preserves the strengthened invariant. -/
theorem resetDuplicates_invariant (u : Nat) (s : List PaymentReport)
    (hinv : dupInvariantS s) : dupInvariantS (resetDuplicates u s) := by
  have hmap := resetDuplicates_eq_map u s
  have hpres : ∀ r : PaymentReport,
      ((if r.id ∈ resetIds u s then clearDupFlag r else r) : PaymentReport).id = r.id := by
    intro r
    by_cases h : r.id ∈ resetIds u s
    · rw [if_pos h]
      rfl
    · rw [if_neg h]
  constructor
  · rw [hmap, map_ids_of_preserve _ hpres s]
    exact hinv.1
  · rw [hmap]
    intro r' hr' hflag
    obtain ⟨r, hr, rfl⟩ := List.mem_map.mp hr'
    by_cases hid : r.id ∈ resetIds u s
    · rw [if_pos hid] at hflag
      exact absurd hflag (by simp [clearDupFlag])
    · rw [if_neg hid] at hflag ⊢
      obtain ⟨p, hp, hpid, hpflag, hpowner⟩ := hinv.2 r hr hflag
      refine ⟨if p.id ∈ resetIds u s then clearDupFlag p else p,
        List.mem_map_of_mem _ hp, ?_, ?_, ?_⟩
      · by_cases h2 : p.id ∈ resetIds u s
        · rw [if_pos h2]
          exact hpid
        · rw [if_neg h2]
          exact hpid
      · by_cases h2 : p.id ∈ resetIds u s
        · rw [if_pos h2]
          rfl
        · rw [if_neg h2]
          exact hpflag
      · by_cases h2 : p.id ∈ resetIds u s
        · rw [if_pos h2]
          exact hpowner
        · rw [if_neg h2]
          exact hpowner

/-- `markDuplicates` preserves the strengthened invariant when the owner
has no pre-existing flags (the reset-before-mark discipline): the newly
flagged rows point at group primaries, which are pool rows no group
lists as a duplicate, and previously flagged rows of other owners keep
their primaries, which no group can touch. -/
theorem markDuplicates_invariant (u : Nat) (s : List PaymentReport)
    (hinv : dupInvariantS s) (hclean : userClean u s) :
    dupInvariantS (markDuplicates u s) := by
  have hmap := markDuplicates_eq_map u s
  have hfacts := detectDuplicates_facts u s
  have hdisjoint := detectDuplicates_disjoint u s
  have hinj : ∀ x ∈ s, ∀ y ∈ s, x.id = y.id → x = y := by
    intro x hx y hy hxy
    exact List.inj_on_of_nodup_map hinv.1 hx hy hxy
  constructor
  · rw [hmap, map_ids_of_preserve _ (applyMarks_id (detectDuplicates u s)) s]
    exact hinv.1
  · rw [hmap]
    intro r' hr' hflag
    obtain ⟨r, hr, rfl⟩ := List.mem_map.mp hr'
    by_cases hmarked : ∃ g ∈ detectDuplicates u s, r.id ∈ g.duplicates.map (·.id)
    · obtain ⟨g, hg, hmem⟩ := hmarked
      have heq := applyMarks_marked (detectDuplicates u s) hfacts.2 r g hg hmem
      have hprim_unmarked : ∀ g2 ∈ detectDuplicates u s,
          g.primary.id ∉ g2.duplicates.map (·.id) := by
        intro g2 hg2 hin
        obtain ⟨d2, hd2, hd2id⟩ := List.mem_map.mp hin
        by_cases heqg : g2 = g
        · subst heqg
          exact ((hfacts.1 g2 hg2).2 d2 hd2) hd2id
        · exact hdisjoint g2 hg2 g hg heqg d2 (mem_members_of_dup g2 d2 hd2)
            g.primary (primary_mem_members g) hd2id
      have hprimeq : applyMarks (detectDuplicates u s) g.primary = g.primary :=
        applyMarks_unmarked _ _ hprim_unmarked
      have hpool := mem_dupPool u s g.primary
        ((hfacts.1 g hg).1 g.primary (primary_mem_members g))
      obtain ⟨d, hd, hdid⟩ := List.mem_map.mp hmem
      have hdpool := mem_dupPool u s d ((hfacts.1 g hg).1 d (mem_members_of_dup g d hd))
      have hrd : r = d := hinj r hr d hdpool.1 hdid.symm
      refine ⟨applyMarks (detectDuplicates u s) g.primary,
        List.mem_map_of_mem _ hpool.1, ?_, ?_, ?_⟩
      · rw [heq, hprimeq]
        rfl
      · rw [hprimeq]
        exact hpool.2.2.1
      · rw [heq, hprimeq]
        show g.primary.emailUserId = r.emailUserId
        rw [hpool.2.2.2, hrd, hdpool.2.2.2]
    · push_neg at hmarked
      have hr'eq : applyMarks (detectDuplicates u s) r = r :=
        applyMarks_unmarked _ _ hmarked
      rw [hr'eq] at hflag
      have howner : r.emailUserId ≠ some u := by
        intro h
        rw [hclean r hr h] at hflag
        exact absurd hflag (by decide)
      obtain ⟨p, hp, hpid, hpflag, hpowner⟩ := hinv.2 r hr hflag
      have hp_unmarked : ∀ g ∈ detectDuplicates u s, p.id ∉ g.duplicates.map (·.id) := by
        intro g hg hin
        obtain ⟨d, hd, hdid⟩ := List.mem_map.mp hin
        have hdpool := mem_dupPool u s d ((hfacts.1 g hg).1 d (mem_members_of_dup g d hd))
        have hpd : p = d := hinj p hp d hdpool.1 hdid.symm
        rw [hpd, hdpool.2.2.2] at hpowner
        exact howner hpowner.symm
      have hpeq : applyMarks (detectDuplicates u s) p = p :=
        applyMarks_unmarked _ _ hp_unmarked
      refine ⟨applyMarks (detectDuplicates u s) p, List.mem_map_of_mem _ hp, ?_, ?_, ?_⟩
      · rw [hr'eq, hpeq]
        exact hpid
      · rw [hpeq]
        exact hpflag
      · rw [hr'eq, hpeq]
        exact hpowner

/-- C9 (amended): the invariant "every duplicate-flagged report's
`primaryReportId` references a non-duplicate report" does NOT hold for
arbitrary sequences of `markDuplicates`/`resetDuplicates` (see the
counterexample: two consecutive marks break it), but it holds for every
state reachable under the reset-before-mark discipline: starting from a
flag-free table with unique row ids, any sequence of the two operations
in which `markDuplicates u` is only run on states where owner `u` has no
flagged rows (`CleanReach`) keeps the invariant. -/
theorem C9_duplicate_invariant (s0 s : List PaymentReport)
    (hflags : noDupFlags s0) (hids : (s0.map (·.id)).Nodup)
    (hreach : CleanReach s0 s) : dupInvariant s := by
  have hS : dupInvariantS s := by
    induction hreach with
    | init =>
      exact ⟨hids, fun r hr hflag => absurd ((hflags r hr).symm.trans hflag) (by decide)⟩
    | reset u s1 h1 ih => exact resetDuplicates_invariant u s1 ih
    | mark u s1 h1 hclean ih => exact markDuplicates_invariant u s1 ih hclean
  intro r hr hflag
  obtain ⟨p, hp, h1, h2, _⟩ := hS.2 r hr hflag
  exact ⟨p, hp, h1, h2⟩

/-- Witness for the amended C9: on the three-report state of the
counterexample, the disciplined sequence mark, reset, mark (re-marking
only after a reset) leaves the invariant intact. -/
theorem C9_duplicate_invariant_witness :
    dupInvariant (markDuplicates 1 (resetDuplicates 1 (markDuplicates 1 c9state))) :=
  C9_duplicate_invariant c9state _ (by decide) (by decide)
    (CleanReach.mark 1 _
      (CleanReach.reset 1 _ (CleanReach.mark 1 _ CleanReach.init (by decide)))
      (by decide))


/-- The per-part text-body effect of `extractPartCore` is `textStep`. -/
theorem extractPartCore_textBody (acc : ExtractAcc) (p : GmailPart) :
    (extractPartCore acc p).textBody = textStep acc.textBody p := by
  simp only [extractPartCore, textStep, apply_ite ExtractAcc.textBody, ite_self]

/-- The per-part HTML-body effect of `extractPartCore` is `htmlStep`. -/
theorem extractPartCore_htmlBody (acc : ExtractAcc) (p : GmailPart) :
    (extractPartCore acc p).htmlBody = htmlStep acc.htmlBody p := by
  simp only [extractPartCore, htmlStep, apply_ite ExtractAcc.htmlBody, ite_self]

/-- The tree walk of `extractParts` computes its text and HTML bodies as
folds of the per-part steps over the preorder part list. -/
theorem extractParts_fold : ∀ (n : Nat) (ps : List GmailPart), sizeOf ps ≤ n →
    ∀ acc : ExtractAcc,
    (extractParts acc ps).textBody = (preorderParts ps).foldl textStep acc.textBody ∧
    (extractParts acc ps).htmlBody = (preorderParts ps).foldl htmlStep acc.htmlBody := by
  intro n
  induction n with
  | zero =>
    intro ps hps acc
    cases ps with
    | nil => exact absurd hps (by simp)
    | cons p rest => exact absurd hps (by simp)
  | succ n ih =>
    intro ps hps acc
    cases ps with
    | nil => constructor <;> simp [extractParts, preorderParts]
    | cons p rest =>
      cases p with
      | mk mt fn hd bd subs =>
        have hsz : 1 + sizeOf (GmailPart.mk mt fn hd bd subs) + sizeOf rest ≤ n + 1 := by
          simpa using hps
        have hsz1 : sizeOf subs ≤ n := by
          have := GmailPart.mk.sizeOf_spec mt fn hd bd subs
          omega
        have hsz2 : sizeOf rest ≤ n := by omega
        have hstep : extractParts acc (GmailPart.mk mt fn hd bd subs :: rest) =
            extractParts
              (extractParts (extractPartCore acc (GmailPart.mk mt fn hd bd subs)) subs)
              rest := by
          simp only [extractParts, extractPart]
        have ih1 := ih subs hsz1 (extractPartCore acc (GmailPart.mk mt fn hd bd subs))
        have ih2 := ih rest hsz2
          (extractParts (extractPartCore acc (GmailPart.mk mt fn hd bd subs)) subs)
        have hpre : preorderParts (GmailPart.mk mt fn hd bd subs :: rest) =
            GmailPart.mk mt fn hd bd subs :: (preorderParts subs ++ preorderParts rest) := by
          simp only [preorderParts, preorderPart, List.cons_append]
        constructor
        · rw [hstep, ih2.1, ih1.1, extractPartCore_textBody, hpre, List.foldl_cons,
            List.foldl_append]
        · rw [hstep, ih2.2, ih1.2, extractPartCore_htmlBody, hpre, List.foldl_cons,
            List.foldl_append]

/-- Once the text body is non-empty, later parts never change it. -/
theorem foldl_textStep_stable (l : List GmailPart) (t : Str) (ht : t ≠ []) :
    l.foldl textStep t = t := by
  induction l with
  | nil => rfl
  | cons p rest ih =>
    rw [List.foldl_cons]
    have : textStep t p = t := by
      unfold textStep
      rw [if_neg]
      rintro ⟨-, -, h⟩
      exact ht h
    rw [this]
    exact ih

/-- Starting from an empty text body, the fold latches onto the first
part on which the assignment fires with a non-empty decode. -/
theorem foldl_textStep_first : ∀ (l : List GmailPart) (fp : GmailPart),
    l.find? plainWins = some fp →
    l.foldl textStep [] = decodeBase64Url ((bodyData fp).getD []) := by
  intro l
  induction l with
  | nil => intro fp h; simp at h
  | cons p rest ih =>
    intro fp h
    rw [List.foldl_cons]
    by_cases hp : plainWins p = true
    · rw [List.find?_cons_of_pos _ hp, Option.some.injEq] at h
      subst h
      have h1 : p.mimeType = some "text/plain".toList := by
        have := hp
        unfold plainWins at this
        simp only [Bool.and_eq_true, decide_eq_true_eq] at this
        exact this.1.1
      have h2 : truthy (bodyData p) = true := by
        have := hp
        unfold plainWins at this
        simp only [Bool.and_eq_true, decide_eq_true_eq] at this
        exact this.1.2
      have h3 : (decodeBase64Url ((bodyData p).getD [])).isEmpty = false := by
        have := hp
        unfold plainWins at this
        simp only [Bool.and_eq_true, Bool.not_eq_true'] at this
        exact this.2
      have hset : textStep [] p = decodeBase64Url ((bodyData p).getD []) := by
        unfold textStep
        rw [if_pos ⟨h1, h2, rfl⟩]
      rw [hset]
      apply foldl_textStep_stable
      intro hcon
      rw [hcon] at h3
      simp at h3
    · rw [List.find?_cons_of_neg _ hp] at h
      have hz : textStep [] p = [] := by
        unfold textStep
        by_cases hc : p.mimeType = some "text/plain".toList ∧ truthy (bodyData p) = true ∧
            ([] : Str) = []
        · rw [if_pos hc]
          by_cases hd : (decodeBase64Url ((bodyData p).getD [])).isEmpty = true
          · cases hdl : decodeBase64Url ((bodyData p).getD []) with
            | nil => rfl
            | cons a t => rw [hdl] at hd; simp at hd
          · exfalso
            apply hp
            have hd2 : (decodeBase64Url ((bodyData p).getD [])).isEmpty = false := by
              cases h2 : (decodeBase64Url ((bodyData p).getD [])).isEmpty
              · rfl
              · exact absurd h2 hd
            unfold plainWins
            simp [hc.1, hc.2.1, hd2]
        · rw [if_neg hc]
      rw [hz]
      exact ih fp h

/-- The HTML fold ends at the decode of the last firing part (the first
hit of the reversed preorder); without a hit it keeps its input. -/
theorem foldl_htmlStep_find : ∀ (l : List GmailPart) (h0 : Str),
    (∀ lp, l.reverse.find? htmlHit = some lp →
      l.foldl htmlStep h0 = decodeBase64Url ((bodyData lp).getD [])) ∧
    (l.reverse.find? htmlHit = none → l.foldl htmlStep h0 = h0) := by
  intro l
  induction l with
  | nil =>
    intro h0
    constructor
    · intro lp h
      rw [List.reverse_nil, List.find?_nil] at h
      exact Option.noConfusion h
    · intro
      rfl
  | cons p rest ih =>
    intro h0
    constructor
    · intro lp h
      rw [List.reverse_cons, List.find?_append] at h
      rw [List.foldl_cons]
      cases hr : rest.reverse.find? htmlHit with
      | some q =>
        rw [hr, Option.or_some, Option.some.injEq] at h
        subst h
        exact (ih (htmlStep h0 p)).1 q hr
      | none =>
        rw [hr, Option.none_or] at h
        by_cases hp : htmlHit p = true
        · rw [List.find?_cons_of_pos _ hp, Option.some.injEq] at h
          subst h
          have hfire : htmlStep h0 p = decodeBase64Url ((bodyData p).getD []) := by
            unfold htmlStep
            unfold htmlHit at hp
            simp only [Bool.and_eq_true, decide_eq_true_eq] at hp
            rw [if_pos ⟨hp.1, hp.2⟩]
          rw [hfire]
          exact (ih (decodeBase64Url ((bodyData p).getD []))).2 hr
        · rw [List.find?_cons_of_neg _ hp, List.find?_nil] at h
          exact Option.noConfusion h
    · intro h
      rw [List.reverse_cons, List.find?_append] at h
      cases hr : rest.reverse.find? htmlHit with
      | some q =>
        rw [hr, Option.or_some] at h
        exact Option.noConfusion h
      | none =>
        rw [hr, Option.none_or] at h
        rw [List.foldl_cons]
        have hskip : htmlStep h0 p = h0 := by
          unfold htmlStep
          rw [if_neg]
          rintro ⟨h1, h2⟩
          by_cases hp : htmlHit p = true
          · rw [List.find?_cons_of_pos _ hp] at h
            exact Option.noConfusion h
          · apply hp
            unfold htmlHit
            simp [h1, h2]
        rw [hskip]
        exact (ih h0).2 hr

/-- C6 counterexample: a tree with two `text/plain` and two `text/html`
parts whose first plain part (in traversal order) carries truthy data
decoding to the empty string.  The parsed text body is the decode of the
SECOND plain part, not of the first: the `!textBody` guard re-fires after
an empty decode, so "first match wins; later plain-text parts are
ignored" does not hold. -/
theorem C6_counterexample :
    ((preorderParts c6payload.parts).filter
        (fun p => decide (p.mimeType = some "text/plain".toList))).length = 2 ∧
    ((preorderParts c6payload.parts).filter
        (fun p => decide (p.mimeType = some "text/html".toList))).length = 2 ∧
    (preorderParts c6payload.parts).find?
        (fun p => decide (p.mimeType = some "text/plain".toList)) = some c6plain1 ∧
    (parseGmailMessage c6msg).body ≠ decodeBase64Url ((bodyData c6plain1).getD []) ∧
    (parseGmailMessage c6msg).body = decodeBase64Url ((bodyData c6plain2).getD []) :=
  ⟨by decide, by decide, by rfl, by decide, by decide⟩

/-- C6 (amended): for a message whose top-level payload has no own body
data, the parsed text body is the decoded payload of the first part in
traversal order that is `text/plain` with truthy data and a non-empty
decode, and the parsed HTML body is the decoded payload of the last
`text/html` part with truthy data. -/
theorem C6_first_plain_last_html (m : GmailMessage) (p0 : GmailPart)
    (hp : m.payload = some p0) (hb : truthy (bodyData p0) = false)
    (fp lp : GmailPart)
    (hfp : (preorderParts p0.parts).find? plainWins = some fp)
    (hlp : (preorderParts p0.parts).reverse.find? htmlHit = some lp) :
    (parseGmailMessage m).body = decodeBase64Url ((bodyData fp).getD []) ∧
    (parseGmailMessage m).htmlBody = decodeBase64Url ((bodyData lp).getD []) := by
  have hacc : (parseGmailMessage m).body =
      (extractParts { textBody := [], htmlBody := [], attachments := [], inlineImages := [] }
        p0.parts).textBody ∧
      (parseGmailMessage m).htmlBody =
      (extractParts { textBody := [], htmlBody := [], attachments := [], inlineImages := [] }
        p0.parts).htmlBody := by
    constructor <;> simp [parseGmailMessage, hp, hb]
  have hfold := extractParts_fold (sizeOf p0.parts) p0.parts le_rfl
    { textBody := [], htmlBody := [], attachments := [], inlineImages := [] }
  constructor
  · rw [hacc.1, hfold.1]
    exact foldl_textStep_first (preorderParts p0.parts) fp hfp
  · rw [hacc.2, hfold.2]
    exact (foldl_htmlStep_find (preorderParts p0.parts) []).1 lp hlp

/-- Witness for the amended C6: on a four-part tree (two plain, two
html) with non-empty decodes the first plain part supplies the text body
and the last html part the HTML body. -/
theorem C6_first_plain_last_html_witness :
    (parseGmailMessage c6wmsg).body = decodeBase64Url ((bodyData c6plain2).getD []) ∧
    (parseGmailMessage c6wmsg).htmlBody = decodeBase64Url ((bodyData c6html2).getD []) :=
  C6_first_plain_last_html c6wmsg c6wpayload (by rfl) (by rfl) c6plain2 c6html2
    (by rfl) (by rfl)

/-- The effective-sender computation of `parseGmailMessage`, written out:
for a forwarded subject the extracted original sender overrides a truthy
extract, otherwise the envelope From header is kept. -/
theorem parseGmailMessage_fromAddr (m : GmailMessage) :
    (parseGmailMessage m).fromAddr =
      if isForwardedEmail (parseGmailMessage m).subject then
        match extractOriginalSender
            (if (parseGmailMessage m).body.isEmpty then (parseGmailMessage m).htmlBody
             else (parseGmailMessage m).body) with
        | some o => if o.isEmpty then envelopeFrom m else some o
        | none => envelopeFrom m
      else envelopeFrom m := rfl

/-- C7: for a message whose subject matches a forwarding marker, a
non-empty extracted original sender (the first pattern match after the
first forwarding boundary marker found in the body) becomes the parsed
sender, overriding the envelope From header; if extraction fails the
envelope From header is kept. -/
theorem C7_forwarded_sender (m : GmailMessage)
    (hfwd : isForwardedEmail (parseGmailMessage m).subject = true) :
    (∀ o, extractOriginalSender
        (if (parseGmailMessage m).body.isEmpty then (parseGmailMessage m).htmlBody
         else (parseGmailMessage m).body) = some o → o ≠ [] →
      (parseGmailMessage m).fromAddr = some o) ∧
    (extractOriginalSender
        (if (parseGmailMessage m).body.isEmpty then (parseGmailMessage m).htmlBody
         else (parseGmailMessage m).body) = none →
      (parseGmailMessage m).fromAddr = envelopeFrom m) := by
  have h := parseGmailMessage_fromAddr m
  rw [if_pos hfwd] at h
  constructor
  · intro o ho hone
    rw [ho] at h
    have hne : o.isEmpty = false := by
      cases o with
      | nil => exact absurd rfl hone
      | cons a t => rfl
    rw [h]
    show (if o.isEmpty then envelopeFrom m else some o) = some o
    rw [hne]
    simp
  · intro ho
    rw [ho] at h
    exact h

/-- Witness for C7: subject `Fwd: receipt`, body with the forwarding
boundary and `From: Jane <jane@x.com>`; the parsed sender is Jane, not
the envelope sender Boss. -/
theorem C7_forwarded_sender_witness :
    (parseGmailMessage c7msg).fromAddr = some "Jane <jane@x.com>".toList ∧
    envelopeFrom c7msg = some "Boss <boss@corp.com>".toList :=
  ⟨(C7_forwarded_sender c7msg (by decide)).1 "Jane <jane@x.com>".toList
      (by decide) (by decide),
   by decide⟩

end Mycv
